import Mathlib

set_option linter.dupNamespace false
set_option linter.unusedVariables false

/-!
Verification of the consensus core of the odysseygo repository.

The Go sources are embedded shallowly: block and node identifiers
(`ids.ID`, 32-byte arrays) become `Nat`, Go maps become association
lists with functional update, pointer mutation becomes state passing,
and unbounded `for` loops become fuel-indexed recursion where the fuel
is computed from the sizes that bound the Go loop.
-/

namespace OdysseyGo

/-- A 32-byte identifier (`ids.ID`); embedded as `Nat`.  `0` plays the
role of the zero value `ids.ID{}` (the "empty id"). -/
abbrev ID := Nat

/-- The zero id `ids.ID{}` used by `Topological.vote` as the default
next id. -/
def emptyID : ID := 0

/-- A node (peer) identifier (`ids.ShortID`); embedded as `Nat`. -/
abbrev Peer := Nat

/-- Block status, from the `snow/choices` package. -/
inductive Status
  | unknown
  | processing
  | accepted
  | rejected
deriving DecidableEq, Repr

/-- `choices.Status.Decided`: accepted or rejected. -/
def Status.decided : Status → Bool
  | .accepted => true
  | .rejected => true
  | _ => false

/-- `choices.Status.Fetched`: anything other than unknown. -/
def Status.fetched : Status → Bool
  | .unknown => false
  | _ => true

/-! ### Association-list maps

Go `map` values are embedded as association lists with unique keys
(maintained by construction: `aset` overwrites in place). -/

/-- Look a key up in an association list. -/
def alookup {κ α : Type} [DecidableEq κ] : List (κ × α) → κ → Option α
  | [], _ => none
  | (k, v) :: rest, i => if k = i then some v else alookup rest i

/-- Insert or overwrite a key in an association list. -/
def aset {κ α : Type} [DecidableEq κ] : List (κ × α) → κ → α → List (κ × α)
  | [], i, v => [(i, v)]
  | (k, w) :: rest, i, v =>
      if k = i then (i, v) :: rest else (k, w) :: aset rest i v

/-- Delete a key from an association list. -/
def aerase {κ α : Type} [DecidableEq κ] : List (κ × α) → κ → List (κ × α)
  | [], _ => []
  | (k, w) :: rest, i => if k = i then rest else (k, w) :: aerase rest i

/-- Key membership in an association list. -/
def amem {κ α : Type} [DecidableEq κ] (m : List (κ × α)) (i : κ) : Bool :=
  (alookup m i).isSome

/-! ### `ids.Set` and `ids.Bag`

Modelled from the spec: the `ids` package itself is not in the source
excerpt.  `ids.Set` is a finite set of ids; `ids.Bag` is a multiset of
ids with integer counts ("multiset-with-threshold" in the data model:
it can report the ids whose count reached a configured threshold). -/

/-- Modelled from the spec: `ids.Set`, a finite set of ids, embedded as
a duplicate-free list. -/
abbrev IdSet := List ID

/-- Add an element (no duplicates). -/
def IdSet.add (s : IdSet) (i : ID) : IdSet :=
  if s.contains i then s else s ++ [i]

/-- Remove an element. -/
def IdSet.remove (s : IdSet) (i : ID) : IdSet :=
  s.filter (fun j => j != i)

/-- Modelled from the spec: `ids.Bag`, a multiset of ids.  Embedded as
an association list from id to (positive) count. -/
abbrev Bag := List (ID × Nat)

/-- The empty bag. -/
def Bag.empty : Bag := []

/-- `Bag.Count`: the multiplicity of an id. -/
def Bag.count (b : Bag) (i : ID) : Nat := (alookup b i).getD 0

/-- `Bag.AddCount`: add `n` copies of an id (ignored when `n = 0`,
matching Go's guard on non-positive counts). -/
def Bag.addCount (b : Bag) (i : ID) (n : Nat) : Bag :=
  if n = 0 then b else aset b i (b.count i + n)

/-- `Bag.Add`: add one copy of each listed id. -/
def Bag.addList (b : Bag) (is : List ID) : Bag :=
  is.foldl (fun acc i => acc.addCount i 1) b

/-- `Bag.List`: the distinct ids in the bag. -/
def Bag.list (b : Bag) : List ID := b.map Prod.fst

/-- `Bag.Len`: the total number of copies in the bag. -/
def Bag.len (b : Bag) : Nat := (b.map Prod.snd).sum

/-- `Bag.Threshold` after `SetThreshold t`: the ids whose count reached
the threshold.  (Go tracks this incrementally in `metThreshold`; since
counts only grow, that set is extensionally the filter below.) -/
def Bag.threshold (b : Bag) (t : Nat) : List ID :=
  (b.filter (fun e => t ≤ e.2)).map Prod.fst

/-! ### Blocks and Snowball instances

`snow/consensus/snowman/topological.go` is in the source excerpt; the
`snowmanBlock` node type (block.go) and the `snowball` package are not,
so those two are modelled from the spec. -/

/-- The data of one `Block` object as consensus observes it: parent id,
status and serialized bytes.  `Accept`/`Reject` mutate the status; the
embedding keeps all block objects in a store keyed by id. -/
structure BlockData where
  parent : ID
  status : Status
  bytes : List Nat
deriving DecidableEq, Repr

/-- Update the status of a block object in the store (no-op on an
unknown id; in Go the object always exists when this is reached). -/
def setStatus (store : List (ID × BlockData)) (i : ID) (st : Status) :
    List (ID × BlockData) :=
  match alookup store i with
  | some bd => aset store i { bd with status := st }
  | none => store

/-- `snowball.Parameters`, restricted to the fields the embedded code
reads. -/
structure Params where
  k : Nat
  alpha : Nat
  betaVirtuous : Nat
  betaRogue : Nat
deriving DecidableEq, Repr

/-- Modelled from the spec: the (n-ary) Snowball instance aggregating
confidence for the decision among one node's children.  Per child it
tracks the total-successful-polls counter; `preference` is the child
with the most successful polls (ties retain the previous preference),
`sfPreference` is the last child to win a poll, and `confidence` counts
its consecutive wins. -/
structure Snowball where
  preference : ID
  sfPreference : ID
  confidence : Nat
  finalized : Bool
  successes : List (ID × Nat)
deriving DecidableEq, Repr

/-- Modelled from the spec: the instance is created when the first
child is added and initially prefers it. -/
def Snowball.init (choice : ID) : Snowball :=
  { preference := choice, sfPreference := choice, confidence := 0,
    finalized := false, successes := [(choice, 0)] }

/-- Modelled from the spec: register a further child choice; the
preference is unchanged. -/
def Snowball.add (sb : Snowball) (choice : ID) : Snowball :=
  if amem sb.successes choice then sb
  else { sb with successes := sb.successes ++ [(choice, 0)] }

/-- Modelled from the spec: a successful poll for one child bumps its
total counter; the preference moves only when that total strictly
exceeds the current preference's total (on ties the previous
preference is retained); the consecutive counter increments when the
same child wins again and restarts at 1 otherwise; the instance
finalizes once the consecutive counter reaches the commit threshold
(the rogue threshold when the node has more than one child). -/
def Snowball.recordSuccessfulPoll (p : Params) (sb : Snowball) (choice : ID) : Snowball :=
  if sb.finalized then sb
  else
    let beta := if 1 < sb.successes.length then p.betaRogue else p.betaVirtuous
    let successes := aset sb.successes choice ((alookup sb.successes choice).getD 0 + 1)
    let pref :=
      if (alookup successes sb.preference).getD 0 < (alookup successes choice).getD 0
      then choice else sb.preference
    let conf := if choice = sb.sfPreference then sb.confidence + 1 else 1
    { preference := pref, sfPreference := choice, confidence := conf,
      finalized := beta ≤ conf, successes := successes }

/-- Modelled from the spec: an unsuccessful poll resets the
consecutive-successful-polls counter. -/
def Snowball.recordUnsuccessfulPoll (sb : Snowball) : Snowball :=
  { sb with confidence := 0 }

/-- Modelled from the spec: one poll round on the instance.  If some
child gathered at least alpha votes the poll is successful for it,
otherwise unsuccessful. -/
def Snowball.recordPoll (p : Params) (sb : Snowball) (votes : Bag) : Snowball :=
  match votes.find? (fun e => p.alpha ≤ e.2) with
  | some e => sb.recordSuccessfulPoll p e.1
  | none => sb.recordUnsuccessfulPoll

/-- One node of the consensus tree (`snowmanBlock`; modelled from the
spec).  Holds the block it decides over (absent on the root node), the
child ids, an optional Snowball instance over the children, and the
should-falter flag. -/
structure SnowmanBlock where
  blk : Option ID
  children : List ID
  sb : Option Snowball
  shouldFalter : Bool
deriving DecidableEq, Repr

/-- Modelled from the spec: `snowmanBlock.AddChild`.  The first child
creates the Snowball instance preferring it; later children are added
as further choices. -/
def SnowmanBlock.addChild (n : SnowmanBlock) (childID : ID) : SnowmanBlock :=
  match n.sb with
  | none => { n with children := [childID], sb := some (Snowball.init childID) }
  | some sb => { n with children := n.children ++ [childID], sb := some (sb.add childID) }

/-- Lift `RecordUnsuccessfulPoll` to the optional instance (Go would
dereference a nil pointer; the branch is unreachable on nodes carrying
votes, which always have children). -/
def sbRecordUnsuccessful : Option Snowball → Option Snowball
  | some sb => some sb.recordUnsuccessfulPoll
  | none => none

/-- Lift `RecordPoll` to the optional instance. -/
def sbRecordPoll (p : Params) (osb : Option Snowball) (votes : Bag) : Option Snowball :=
  match osb with
  | some sb => some (sb.recordPoll p votes)
  | none => none

/-- Lift `Finalized` to the optional instance. -/
def sbFinalized : Option Snowball → Bool
  | some sb => sb.finalized
  | none => false

/-- Lift `Preference` to the optional instance. -/
def sbPreference : Option Snowball → ID
  | some sb => sb.preference
  | none => emptyID

/-! ### The Topological snowman instance
(`snow/consensus/snowman/topological.go`) -/

/-- The state of a `Topological` consensus instance, together with the
store of block objects it mutates through `Accept`/`Reject`. -/
structure Topological where
  params : Params
  head : ID
  blocks : List (ID × SnowmanBlock)
  tail : ID
  store : List (ID × BlockData)
deriving DecidableEq, Repr

/-- The status of the block object with the given id (`blk.Status()`). -/
def Topological.blkStatus (ts : Topological) (i : ID) : Status :=
  match alookup ts.store i with
  | some bd => bd.status
  | none => .unknown

/-- The parent id of the block object with the given id
(`blk.Parent().ID()`). -/
def Topological.blkParent (ts : Topological) (i : ID) : ID :=
  match alookup ts.store i with
  | some bd => bd.parent
  | none => emptyID

/-- `Topological.Initialize`: seed the tree with a single root node. -/
def Topological.Initialize (params : Params) (store : List (ID × BlockData))
    (rootID : ID) : Topological :=
  { params := params, head := rootID,
    blocks := [(rootID, ⟨none, [], none, false⟩)],
    tail := rootID, store := store }

/-- `Topological.Add`: attach a block under its parent node, or reject
it outright when the parent was already pruned from the live tree. -/
def Topological.Add (ts : Topological) (blkID : ID) : Topological :=
  let parentID := ts.blkParent blkID
  match alookup ts.blocks parentID with
  | none =>
      -- the ancestor is missing (already pruned): transitively rejected
      { ts with store := setStatus ts.store blkID .rejected }
  | some parentNode =>
      let blocks := aset ts.blocks parentID (parentNode.addChild blkID)
      let blocks := aset blocks blkID ⟨some blkID, [], none, false⟩
      { ts with blocks := blocks,
                tail := if ts.tail = parentID then blkID else ts.tail }

/-- `Topological.Issued`: the block object is decided, or present in
the live tree. -/
def Topological.Issued (ts : Topological) (blk : ID × BlockData) : Bool :=
  blk.2.status.decided || amem ts.blocks blk.1

/-- `Topological.Preference`. -/
def Topological.Preference (ts : Topological) : ID := ts.tail

/-- `Topological.Finalized`: only the accepted head remains. -/
def Topological.Finalized (ts : Topological) : Bool := ts.blocks.length = 1

/-- Kahn topological-sort bookkeeping (`kahnNode`). -/
structure kahnNode where
  inDegree : Nat
  votes : Bag
deriving DecidableEq, Repr

/-- A frame of the vote stack (`votes` in topological.go): the parent
id and the aggregated votes for its children. -/
structure votes where
  parentID : ID
  votes : Bag
deriving DecidableEq, Repr

/-- The inner ancestor-walk loop of `calculateInDegree`: walk toward
the root incrementing in-degrees until leaving the live tree or
reaching an already-traversed branch.  The fuel bounds the walk (in Go
it is bounded by the tree height). -/
def Topological.walkAncestors (ts : Topological) :
    Nat → ID → List (ID × kahnNode) → IdSet → List (ID × kahnNode) × IdSet
  | 0, _, kahns, leaves => (kahns, leaves)
  | fuel+1, parentID, kahns, leaves =>
    match alookup ts.blocks parentID with
    | none => (kahns, leaves)
    | some n =>
      match n.blk with
      | none => (kahns, leaves)
      | some b =>
        if (ts.blkStatus b).decided then (kahns, leaves)
        else
          let pid := ts.blkParent b
          let kahn := (alookup kahns pid).getD ⟨0, Bag.empty⟩
          let kahn := { kahn with inDegree := kahn.inDegree + 1 }
          let kahns := aset kahns pid kahn
          if kahn.inDegree = 1 then
            ts.walkAncestors fuel pid kahns (leaves.remove pid)
          else (kahns, leaves)

/-- `Topological.calculateInDegree`: set up the topological ordering of
the reachable subtree induced by the voted blocks.  Votes for ids that
are unknown or decided are dropped. -/
def Topological.calculateInDegree (ts : Topological) (vs : Bag) :
    List (ID × kahnNode) × List ID :=
  let fuel := ts.blocks.length + 1
  vs.list.foldl
    (fun (acc : List (ID × kahnNode) × IdSet) vote =>
      match alookup ts.blocks vote with
      | none => acc
      | some voteNode =>
        match voteNode.blk with
        | none => acc
        | some b =>
          if (ts.blkStatus b).decided then acc
          else
            let (kahns, leaves) := acc
            let parentID := ts.blkParent b
            let previouslySeen := amem kahns parentID
            let kahn := (alookup kahns parentID).getD ⟨0, Bag.empty⟩
            let kahn := { kahn with votes := kahn.votes.addCount vote (vs.count vote) }
            let kahns := aset kahns parentID kahn
            if previouslySeen then (kahns, leaves)
            else ts.walkAncestors fuel parentID kahns (leaves.add parentID))
    ([], [])

/-- `Topological.pushVotes`: pop leaves, pushing a frame onto the vote
stack whenever the aggregated votes reach alpha, and push aggregated
counts to the parent.  The Go loop pops from and appends to the end of
the leaf slice and appends stack frames; the embedding keeps the leaf
list in the same order and builds the stack with its top at the head.
The fuel bounds the loop (each node enters the leaf list at most
once). -/
def Topological.pushVotes (ts : Topological) :
    Nat → List (ID × kahnNode) → List ID → List votes → List votes
  | 0, _, _, stack => stack
  | fuel+1, kahnNodes, leaves, stack =>
    match leaves.getLast? with
    | none => stack
    | some leaf =>
      let leaves := leaves.dropLast
      let kahn := (alookup kahnNodes leaf).getD ⟨0, Bag.empty⟩
      match alookup ts.blocks leaf with
      | none => ts.pushVotes fuel kahnNodes leaves stack
      | some node =>
        let stack :=
          if ts.params.alpha ≤ kahn.votes.len then ⟨leaf, kahn.votes⟩ :: stack
          else stack
        match node.blk with
        | none => ts.pushVotes fuel kahnNodes leaves stack
        | some b =>
          if (ts.blkStatus b).decided then
            -- stop traversing once past the decided frontier
            ts.pushVotes fuel kahnNodes leaves stack
          else
            let parentID := ts.blkParent b
            match alookup kahnNodes parentID with
            | none => ts.pushVotes fuel kahnNodes leaves stack
            | some depNode =>
              let dep := { depNode with
                inDegree := depNode.inDegree - 1
                votes := depNode.votes.addCount leaf kahn.votes.len }
              let kahnNodes := aset kahnNodes parentID dep
              if dep.inDegree = 0 then
                ts.pushVotes fuel kahnNodes (leaves ++ [parentID]) stack
              else ts.pushVotes fuel kahnNodes leaves stack

/-- `Topological.rejectTransitively`: reject everything that depends on
the newly rejected ids (worklist popping from the end, as in Go).  The
fuel bounds the worklist (each live node is deleted at most once). -/
def Topological.rejectTransitively : Nat → Topological → List ID → Topological
  | 0, ts, _ => ts
  | fuel+1, ts, rejected =>
    match rejected.getLast? with
    | none => ts
    | some rejectID =>
      let rejected := rejected.dropLast
      match alookup ts.blocks rejectID with
      | none =>
          Topological.rejectTransitively fuel
            { ts with blocks := aerase ts.blocks rejectID } rejected
      | some rejectNode =>
          let ts := { ts with blocks := aerase ts.blocks rejectID }
          let ts := rejectNode.children.foldl
            (fun acc c => { acc with store := setStatus acc.store c .rejected }) ts
          Topological.rejectTransitively fuel ts (rejected ++ rejectNode.children)

/-- `Topological.accept`: accept the node's Snowball preference, reject
its siblings and (transitively) their descendants, and move the head.
(In Go a nil Snowball here would be a nil dereference; the node always
has one when this is called.) -/
def Topological.accept (fuel : Nat) (ts : Topological) (n : SnowmanBlock) : Topological :=
  match n.sb with
  | none => ts
  | some sb =>
    let pref := sb.preference
    let rejects := n.children.filter (fun c => c ≠ pref)
    let ts := rejects.foldl
      (fun acc c => { acc with store := setStatus acc.store c .rejected }) ts
    let ts := Topological.rejectTransitively fuel ts rejects
    let ts := { ts with head := pref }
    { ts with store := setStatus ts.store pref .accepted }

/-- The non-empty-stack loop of `Topological.vote`, popping frames from
the top of the stack (the head of the embedded list).  Returns the
updated state and the computed tail. -/
def Topological.voteLoop : Topological → List votes → Bool → ID → Topological × ID
  | ts, [], _, tail => (ts, tail)
  | ts, voteGroup :: stack, onTail, tail =>
    match alookup ts.blocks voteGroup.parentID with
    | none => (ts, tail)
    | some parentNode =>
      let shouldTransFalter := parentNode.shouldFalter
      let parentNode :=
        if parentNode.shouldFalter then
          { parentNode with
            sb := sbRecordUnsuccessful parentNode.sb
            shouldFalter := false }
        else parentNode
      let parentNode := { parentNode with sb := sbRecordPoll ts.params parentNode.sb voteGroup.votes }
      let ts := { ts with blocks := aset ts.blocks voteGroup.parentID parentNode }
      let st :=
        if sbFinalized parentNode.sb && ts.head = voteGroup.parentID then
          let ts := ts.accept (ts.blocks.length + 1) parentNode
          ({ ts with blocks := aerase ts.blocks voteGroup.parentID },
           sbPreference parentNode.sb)
        else (ts, tail)
      let ts := st.1
      let tail := st.2
      let nextID := match stack with
        | [] => emptyID
        | g :: _ => g.parentID
      let onTail := onTail && decide (nextID = sbPreference parentNode.sb)
      let tail := if onTail then nextID else tail
      let ts := parentNode.children.foldl
        (fun acc childID =>
          if shouldTransFalter || childID ≠ nextID then
            match alookup acc.blocks childID with
            | some childNode =>
                let childNode := { childNode with shouldFalter := true }
                { acc with blocks := aset acc.blocks childID childNode }
            | none => acc
          else acc)
        ts
      Topological.voteLoop ts stack onTail tail

/-- `Topological.vote`: unwind the vote stack.  An empty stack marks
the head node to falter and leaves the tail unchanged.  (In Go a head
missing from the live map would be a nil dereference; the head is
always live.) -/
def Topological.vote (ts : Topological) (voteStack : List votes) : Topological × ID :=
  match voteStack with
  | [] =>
    match alookup ts.blocks ts.head with
    | some headNode =>
        let headNode := { headNode with shouldFalter := true }
        ({ ts with blocks := aset ts.blocks ts.head headNode }, ts.tail)
    | none => (ts, ts.tail)
  | stack => Topological.voteLoop ts stack true ts.head

/-- `Topological.getPreferredDecendent` (name as in the source): follow
the Snowball-preferred child from the given id down to a node with no
Snowball.  (In Go an id missing from the live map would be a nil
dereference; the traversal stays inside the live tree.) -/
def Topological.getPreferredDecendent (ts : Topological) : Nat → ID → ID
  | 0, blkID => blkID
  | fuel+1, blkID =>
    match alookup ts.blocks blkID with
    | none => blkID
    | some block =>
      match block.sb with
      | none => blkID
      | some sb => ts.getPreferredDecendent fuel sb.preference

/-- The vote stack produced by one `RecordPoll` round: `pushVotes`
applied to the Kahn graph of the vote bag. -/
def Topological.voteStackOf (ts : Topological) (vs : Bag) : List votes :=
  let kl := ts.calculateInDegree vs
  ts.pushVotes (kl.1.length + kl.2.length + 1) kl.1 kl.2 []

/-- `Topological.RecordPoll`: Kahn traversal, vote-stack unwinding and
tail recomputation. -/
def Topological.RecordPoll (ts : Topological) (vs : Bag) : Topological :=
  let res := ts.vote (ts.voteStackOf vs)
  let ts2 := res.1
  { ts2 with tail := ts2.getPreferredDecendent (ts2.blocks.length + 1) res.2 }

/-- A vote is dropped by `calculateInDegree` when its id does not name
a live, undecided block of the tree (the id is unknown, the root, or a
decided block). -/
def Topological.droppedVote (ts : Topological) (i : ID) : Bool :=
  match alookup ts.blocks i with
  | none => true
  | some n =>
    match n.blk with
    | none => true
    | some b => (ts.blkStatus b).decided

/-! ### Bootstrapper (accepted-query phase)

From the `common.Bootstrapper` source (unnamed part): the struct, its
`Initialize`, and the `Accepted` handler.  The embedding carries the
state only; the outbound `GetAccepted` send and log lines performed on
the frontier path are effects outside these claims. -/

/-- The `common.Bootstrapper` struct: beacon bookkeeping for the two
bootstrap query phases.  `forceAccepted` records the argument of the
`Bootstrapable.ForceAccepted` callback once the accepted-query phase
completes (`none` while it has not been invoked). -/
structure Bootstrapper where
  alpha : Nat
  beacons : List Peer
  pendingAcceptedFrontier : List Peer
  acceptedFrontier : IdSet
  pendingAccepted : List Peer
  accepted : Bag
  forceAccepted : Option (List ID)
deriving DecidableEq, Repr

/-- `Bootstrapper.Initialize`: add every beacon to both pending sets
and set the accepted bag's threshold to alpha (the threshold is applied
at read time by `Bag.threshold`). -/
def Bootstrapper.Initialize (beacons : List Peer) (alpha : Nat) : Bootstrapper :=
  { alpha := alpha, beacons := beacons
    pendingAcceptedFrontier := beacons.foldl IdSet.add []
    acceptedFrontier := []
    pendingAccepted := beacons.foldl IdSet.add []
    accepted := Bag.empty
    forceAccepted := none }

/-- `Bootstrapper.Accepted`: drop the reply when the sender is not a
pending beacon; otherwise remove the sender from the pending set, add
one count per reported container id, and when the pending set empties
hand the ids that reached the alpha threshold to `ForceAccepted`. -/
def Bootstrapper.Accepted (b : Bootstrapper) (validatorID : Peer)
    (containerIDs : List ID) : Bootstrapper :=
  if ¬ b.pendingAccepted.contains validatorID then b
  else
    let b := { b with pendingAccepted := IdSet.remove b.pendingAccepted validatorID }
    let b := { b with accepted := b.accepted.addList containerIDs }
    if b.pendingAccepted.length = 0 then
      { b with forceAccepted := some (b.accepted.threshold b.alpha) }
    else b

/-- A whole sequence of `Accepted` replies, in arrival order. -/
def Bootstrapper.runAccepted (b : Bootstrapper)
    (replies : List (Peer × List ID)) : Bootstrapper :=
  replies.foldl (fun acc r => acc.Accepted r.1 r.2) b

/-- All container ids reported across a reply sequence, with
multiplicity one per reporting beacon. -/
def allReported (replies : List (Peer × List ID)) : List ID :=
  (replies.map Prod.snd).flatten

/-- The total stake weight of the beacons whose reply reports a given
container id — the aggregation the claim describes, following the
spec's words ("aggregate counts weighted by beacon stake"); written
only to compare against what the source computes. -/
def beaconWeightReporting (stake : Peer → Nat)
    (replies : List (Peer × List ID)) (i : ID) : Nat :=
  ((replies.filter (fun r => r.2.contains i)).map (fun r => stake r.1)).sum

/-! ### Transitive engine (snowman engine, unnamed part)

The `Transitive` struct and its handlers are in the source excerpt;
`common.Requests`, `events.Blocker` and the `poll` package are not and
are modelled from the spec.  The VM is the engine's oracle and is
passed as an environment of pure functions; outbound messages are
returned as a trace. -/

/-- Wire-frame constants.  Modelled from the spec:
`common.MaxContainersPerMultiPut` is not in the excerpt (the spec's
`max_containers_per_multiput`). -/
def MaxContainersPerMultiPut : Nat := 2000

/-- Modelled from the spec: `network.DefaultMaxMessageSize` (the
wire-frame maximum) is not in the excerpt. -/
def DefaultMaxMessageSize : Nat := 1 <<< 21

/-- `maxContainersLen = 4 * network.DefaultMaxMessageSize / 5`, from
the engine source. -/
def maxContainersLen : Nat := 4 * DefaultMaxMessageSize / 5

/-- `wrappers.IntLen`: the wire size of an int length field. -/
def intLen : Nat := 4

/-- Modelled from the spec: `common.Requests`, the outstanding-request
table keyed by (peer, request id), carrying the container id sought. -/
structure Requests where
  reqs : List ((Peer × Nat) × ID)
deriving DecidableEq, Repr

/-- `Requests.Add`. -/
def Requests.add (r : Requests) (vdr : Peer) (rid : Nat) (blkID : ID) : Requests :=
  ⟨aset r.reqs (vdr, rid) blkID⟩

/-- `Requests.Remove`: look the key up and delete it, returning the
container id it was for (when present). -/
def Requests.remove (r : Requests) (vdr : Peer) (rid : Nat) : Option ID × Requests :=
  match alookup r.reqs (vdr, rid) with
  | none => (none, r)
  | some blkID => (some blkID, ⟨aerase r.reqs (vdr, rid)⟩)

/-- `Requests.RemoveAny`: drop every outstanding request for the
container id. -/
def Requests.removeAny (r : Requests) (blkID : ID) : Requests :=
  ⟨r.reqs.filter (fun e => e.2 != blkID)⟩

/-- `Requests.Contains`: some outstanding request seeks the id. -/
def Requests.contains (r : Requests) (blkID : ID) : Bool :=
  r.reqs.any (fun e => e.2 == blkID)

/-- `Requests.Len`. -/
def Requests.len (r : Requests) : Nat := r.reqs.length

/-- The deferred-action kinds registered on the blocker: issuing a
block, applying a vote (the voter of `Chits`/`QueryFailed`; no
response means the empty vote), answering a query (the convincer of
`PullQuery`). -/
inductive EngineAction
  | issuerAct (blkID : ID)
  | voterAct (vdr : Peer) (requestID : Nat) (response : Option ID)
  | convincerAct (vdr : Peer) (requestID : Nat)
deriving DecidableEq, Repr

/-- An action together with the block ids it still waits on. -/
structure PendingAction where
  deps : List ID
  act : EngineAction
deriving DecidableEq, Repr

/-- Modelled from the spec: `events.Blocker`, the dependency graph of
deferred actions.  `released` records, oldest first, the actions whose
last dependency resolved and which therefore run (their execution
re-enters the engine and is observed through the released queue). -/
structure Blocker where
  pending : List PendingAction
  released : List EngineAction
deriving DecidableEq, Repr

/-- `Blocker.Register`: an action with no outstanding dependencies
runs at once; otherwise it waits. -/
def Blocker.register (b : Blocker) (a : PendingAction) : Blocker :=
  if a.deps.isEmpty then { b with released := b.released ++ [a.act] }
  else { b with pending := b.pending ++ [a] }

/-- One pending action under a resolved dependency: strike the id
from its dependency set; release it when none remain. -/
def resolveStep (blkID : ID) (acc : List PendingAction × List EngineAction)
    (p : PendingAction) : List PendingAction × List EngineAction :=
  if blkID ∈ p.deps then
    let deps := p.deps.filter (fun j => j != blkID)
    if deps.isEmpty then (acc.1, acc.2 ++ [p.act])
    else (acc.1 ++ [{ p with deps := deps }], acc.2)
  else (acc.1 ++ [p], acc.2)

/-- Resolve one dependency (shared shape of `Fulfill` and `Abandon`):
strike the id from every pending action; actions left with no
dependencies are released in registration order. -/
def Blocker.resolve (b : Blocker) (blkID : ID) : Blocker :=
  let r := b.pending.foldl (resolveStep blkID) ([], [])
  { pending := r.1, released := b.released ++ r.2 }

/-- `Blocker.Fulfill`: the block was issued. -/
def Blocker.fulfill (b : Blocker) (blkID : ID) : Blocker := b.resolve blkID

/-- `Blocker.Abandon`: the block is unobtainable. -/
def Blocker.abandon (b : Blocker) (blkID : ID) : Blocker := b.resolve blkID

/-- The VM as the engine observes it: `GetBlock` and `ParseBlock`
(parsing yields the block's id and data). -/
structure Env where
  vmGet : ID → Option BlockData
  vmParse : List Nat → Option (ID × BlockData)

/-- The block object the VM hands out for an id (a missing block has
status Unknown, as in Go). -/
def Env.blockObj (env : Env) (i : ID) : ID × BlockData :=
  (i, (env.vmGet i).getD ⟨emptyID, .unknown, []⟩)

/-- Outbound messages of the engine (the `Sender` calls it makes). -/
inductive OutMsg
  | putMsg (vdr : Peer) (rid : Nat) (blkID : ID) (bytes : List Nat)
  | getMsg (vdr : Peer) (rid : Nat) (blkID : ID)
  | multiPutMsg (vdr : Peer) (rid : Nat) (containers : List (List Nat))
deriving DecidableEq, Repr

/-- The mutable state of the `Transitive` engine: the bootstrap flag
(`Context.IsBootstrapped`), consensus instance, active polls,
outstanding block requests, pending set, blocked actions and the
request-id counter. -/
structure Transitive where
  bootstrapped : Bool
  params : Params
  consensus : Topological
  polls : List (Nat × List Peer)
  blkReqs : Requests
  pending : IdSet
  blocked : Blocker
  requestID : Nat
deriving DecidableEq, Repr

/-- `Transitive.sendRequest`: send at most one Get per container id —
a no-op when one is already outstanding; otherwise register the
request under a fresh request id and send the Get. -/
def Transitive.sendRequest (t : Transitive) (vdr : Peer) (blkID : ID) :
    Transitive × List OutMsg :=
  if t.blkReqs.contains blkID then (t, [])
  else
    let rid := t.requestID + 1
    ({ t with requestID := rid, blkReqs := t.blkReqs.add vdr rid blkID },
     [.getMsg vdr rid blkID])

/-- `Transitive.insert`: mark the block pending, drop any outstanding
requests for it, and register an issuer blocked on the parent when the
parent is not yet issued. -/
def Transitive.insert (env : Env) (t : Transitive) (blk : ID × BlockData) : Transitive :=
  let blkID := blk.1
  let t := { t with pending := t.pending.add blkID }
  let t := { t with blkReqs := t.blkReqs.removeAny blkID }
  let parent := env.blockObj blk.2.parent
  let deps := if t.consensus.Issued parent then [] else [parent.1]
  { t with blocked := t.blocked.register ⟨deps, .issuerAct blkID⟩ }

/-- `Transitive.insertFrom`: walk ancestors toward the root, inserting
each not-yet-issued one; when an ancestor is unknown locally, request
it from the peer and stop.  Returns whether the original block is
issued.  The fuel bounds the ancestor walk (finite in Go). -/
def Transitive.insertFrom (env : Env) :
    Nat → Transitive → Peer → (ID × BlockData) → Bool × Transitive × List OutMsg
  | 0, t, _, blk => (t.consensus.Issued blk, t, [])
  | fuel+1, t, vdr, blk =>
    if t.consensus.Issued blk || t.pending.contains blk.1 then
      (t.consensus.Issued blk, t, [])
    else
      let t := Transitive.insert env t blk
      let parent := env.blockObj blk.2.parent
      if parent.2.status.fetched then
        Transitive.insertFrom env fuel t vdr parent
      else
        let r := t.sendRequest vdr parent.1
        (false, r.1, r.2)

/-- `Transitive.fetchOrInsert`: issue the branch ending at the id; when
the block is not known locally, request it instead. -/
def Transitive.fetchOrInsert (env : Env) (fuel : Nat) (t : Transitive)
    (vdr : Peer) (blkID : ID) : Bool × Transitive × List OutMsg :=
  match env.vmGet blkID with
  | none =>
      let r := t.sendRequest vdr blkID
      (false, r.1, r.2)
  | some bd => Transitive.insertFrom env fuel t vdr (blkID, bd)

/-- `Transitive.Get`: reply with the block when it is known locally,
drop the request silently otherwise. -/
def Transitive.Get (t : Transitive) (env : Env) (vdr : Peer) (rid : Nat)
    (blkID : ID) : Transitive × List OutMsg :=
  match env.vmGet blkID with
  | none => (t, [])
  | some bd => (t, [.putMsg vdr rid blkID bd.bytes])

/-- `Transitive.GetFailed`: drop while bootstrapping; otherwise remove
the matching outstanding request and, when one existed, abandon its
container id. -/
def Transitive.GetFailed (t : Transitive) (vdr : Peer) (rid : Nat) : Transitive :=
  if ¬ t.bootstrapped then t
  else
    match t.blkReqs.remove vdr rid with
    | (none, _) => t
    | (some blkID, reqs) =>
        { t with blkReqs := reqs, blocked := t.blocked.abandon blkID }

/-- `Transitive.Put`: drop while bootstrapping; on a parse failure
behave as `GetFailed`; on success issue the block via `insertFrom`. -/
def Transitive.Put (t : Transitive) (env : Env) (fuel : Nat) (vdr : Peer)
    (rid : Nat) (blkID : ID) (blkBytes : List Nat) : Transitive × List OutMsg :=
  if ¬ t.bootstrapped then (t, [])
  else
    match env.vmParse blkBytes with
    | none => (t.GetFailed vdr rid, [])
    | some blk =>
        let r := Transitive.insertFrom env fuel t vdr blk
        (r.2.1, r.2.2)

/-- `Transitive.QueryFailed`: drop while bootstrapping; otherwise
register a voter with no response and no dependencies (the empty
vote). -/
def Transitive.QueryFailed (t : Transitive) (vdr : Peer) (rid : Nat) : Transitive :=
  if ¬ t.bootstrapped then t
  else { t with blocked := t.blocked.register ⟨[], .voterAct vdr rid none⟩ }

/-- `Transitive.Chits`: drop while bootstrapping; with anything but
exactly one vote, behave as `QueryFailed`; otherwise fetch-or-insert
the voted block and register a voter blocked on it unless already
issued. -/
def Transitive.Chits (t : Transitive) (env : Env) (fuel : Nat) (vdr : Peer)
    (rid : Nat) (votes : IdSet) : Transitive × List OutMsg :=
  if ¬ t.bootstrapped then (t, [])
  else if votes.length ≠ 1 then (t.QueryFailed vdr rid, [])
  else
    let vote := votes.headD emptyID
    let r := Transitive.fetchOrInsert env fuel t vdr vote
    let deps := if r.1 then [] else [vote]
    ({ r.2.1 with blocked := r.2.1.blocked.register ⟨deps, .voterAct vdr rid (some vote)⟩ },
     r.2.2)

/-- The status the VM reports for an id (Unknown when missing). -/
def Env.statusOf (env : Env) (i : ID) : Status :=
  match env.vmGet i with
  | some bd => bd.status
  | none => .unknown

/-- The parent the VM reports for an id. -/
def Env.parentOf (env : Env) (i : ID) : ID :=
  match env.vmGet i with
  | some bd => bd.parent
  | none => emptyID

/-- The bytes the VM reports for an id. -/
def Env.bytesOf (env : Env) (i : ID) : List Nat :=
  match env.vmGet i with
  | some bd => bd.bytes
  | none => []

/-- The n-fold parent of an id. -/
def Env.parentIter (env : Env) (i : ID) : Nat → ID
  | 0 => i
  | n+1 => env.parentOf (env.parentIter i n)

/-- The wire length the engine tracks for a MultiPut container list:
each container contributes its byte length plus an int length field. -/
def multiPutLen (l : List (List Nat)) : Nat :=
  (l.map (fun b => intLen + b.length)).sum

/-- The ancestor-collection loop of `GetAncestors`.  `gas` encodes the
remaining iterations of the Go loop bound
`numFetched < MaxContainersPerMultiPut`; `timeOk n` models the
wall-clock budget check `time.Since(startTime) <
MaxTimeFetchingAncestors` before fetching container `n + 1`. -/
def fetchAncestors (env : Env) (timeOk : Nat → Bool) :
    Nat → ID → Nat → List (List Nat) → List (List Nat)
  | 0, _, _, acc => acc
  | gas+1, blkID, lenAcc, acc =>
    if timeOk acc.length = false then acc
    else
      let pid := env.parentOf blkID
      if env.statusOf pid = .unknown then acc
      else
        let blkBytes := env.bytesOf pid
        let newLen := intLen + lenAcc + blkBytes.length
        if newLen < maxContainersLen then
          fetchAncestors env timeOk gas pid newLen (acc ++ [blkBytes])
        else acc

/-- `Transitive.GetAncestors`: drop when the block is unknown locally;
otherwise reply with a MultiPut listing the block's bytes first and
then ancestors parent-ward, bounded by the container count, byte and
time budgets. -/
def Transitive.GetAncestors (t : Transitive) (env : Env) (timeOk : Nat → Bool)
    (vdr : Peer) (rid : Nat) (blkID : ID) : Transitive × List OutMsg :=
  match env.vmGet blkID with
  | none => (t, [])
  | some bd =>
      let ancestors := fetchAncestors env timeOk (MaxContainersPerMultiPut - 1)
        blkID (bd.bytes.length + intLen) [bd.bytes]
      (t, [.multiPutMsg vdr rid ancestors])

/-- The byte lists along the parent chain from an id: the block's own
bytes first, then each ancestor parent-ward, `m + 1` containers in
all. -/
def ancestryBytes (env : Env) (blkID : ID) (m : Nat) : List (List Nat) :=
  (List.range (m+1)).map (fun j => env.bytesOf (env.parentIter blkID j))

/-- At most one outstanding Get per container id: no two entries of
the request table seek the same container. -/
def ReqsAtMostOne (r : Requests) : Prop :=
  r.reqs.Pairwise (fun e1 e2 => e1.2 ≠ e2.2)

/-- The three engine primitives that write the outstanding-request
table `blkReqs` — reading the engine source, every write to the table
is one of them: `sendRequest`'s guarded Add, `GetFailed`'s Remove, and
`insert`'s RemoveAny. -/
inductive ReqOp
  | sendOp (vdr : Peer) (blkID : ID)
  | removeOp (vdr : Peer) (rid : Nat)
  | removeAnyOp (blkID : ID)
deriving DecidableEq, Repr

/-- Apply one request-table primitive, through the engine's own
functions. -/
def applyReqOp (t : Transitive) : ReqOp → Transitive
  | .sendOp vdr blkID => (t.sendRequest vdr blkID).1
  | .removeOp vdr rid => { t with blkReqs := (t.blkReqs.remove vdr rid).2 }
  | .removeAnyOp blkID => { t with blkReqs := t.blkReqs.removeAny blkID }

/-- Apply a whole sequence of request-table primitives. -/
def applyReqOps (t : Transitive) (ops : List ReqOp) : Transitive :=
  ops.foldl applyReqOp t

/-! ### Sender (unnamed part)

The `Sender` wraps the external sender: self-addressed messages go
straight onto the local router (the `go router.HandleInbound` calls,
embedded as `handleInbound` effects in program order; the `go` makes
them asynchronous, which the trace does not order), benched peers and
failed sends synthesize internal failure messages, and delivered
requests are registered for timeout. -/

/-- Outbound request op codes (`message.Op`). -/
inductive MsgOp
  | getOp
  | getAncestorsOp
  | pullQueryOp
  | pushQueryOp
deriving DecidableEq, Repr

/-- Inbound messages the Sender can hand the local router. -/
inductive InMsg
  | inboundGet (chain : ID) (rid : Nat) (deadline : Nat) (container : ID) (node : Peer)
  | inboundPullQuery (chain : ID) (rid : Nat) (deadline : Nat) (container : ID) (node : Peer)
  | inboundPushQuery (chain : ID) (rid : Nat) (deadline : Nat) (container : ID)
      (bytes : List Nat) (node : Peer)
  | internalGetFailed (node : Peer) (chain : ID) (rid : Nat)
  | internalQueryFailed (node : Peer) (chain : ID) (rid : Nat)
deriving DecidableEq, Repr

/-- The observable actions of one Send call, in program order. -/
inductive SenderEffect
  | handleInbound (m : InMsg)
  | registerRequest (node : Peer) (chain : ID) (rid : Nat) (op : MsgOp)
  | netSend (op : MsgOp) (dests : List Peer)
  | registerUnreachable
  | benchedMetric (op : MsgOp)
deriving DecidableEq, Repr

/-- The Sender's environment: its own node and chain ids, the
benchlist verdicts, which peers the external sender reports delivery
to, the current adaptive timeout and the clock reading. -/
structure SenderEnv where
  selfID : Peer
  chainID : ID
  benched : Peer → Bool
  sendOK : Peer → Bool
  timeoutDuration : Nat
  now : Nat

/-- `Sender.SendGet`: a Get to oneself always fails, so a self-routed
internal GetFailed is enqueued instead of an inbound Get; a benched
peer fails immediately; otherwise the message is sent and the request
registered, with a synthesized failure when delivery fails. -/
def sendGet (env : SenderEnv) (nodeID : Peer) (rid : Nat) (containerID : ID) :
    List SenderEffect :=
  if nodeID = env.selfID then
    [.handleInbound (.internalGetFailed nodeID env.chainID rid)]
  else if env.benched nodeID then
    [.benchedMetric .getOp, .registerUnreachable,
     .handleInbound (.internalGetFailed nodeID env.chainID rid)]
  else if env.sendOK nodeID then
    [.netSend .getOp [nodeID], .registerRequest nodeID env.chainID rid .getOp]
  else
    [.netSend .getOp [nodeID], .registerUnreachable,
     .handleInbound (.internalGetFailed nodeID env.chainID rid)]

/-- `Sender.SendPullQuery`: a destination set containing the local
node gets the inbound form of the query enqueued on the local router
(with a registered timeout); benched peers fail immediately; the rest
are sent over the network, with registrations for delivered peers and
synthesized failures for the others. -/
def sendPullQuery (env : SenderEnv) (nodeIDs : List Peer) (rid : Nat)
    (containerID : ID) : List SenderEffect :=
  let selfPart : List SenderEffect :=
    if nodeIDs.contains env.selfID then
      [.registerRequest env.selfID env.chainID rid .pullQueryOp,
       .handleInbound (.inboundPullQuery env.chainID rid
         (env.now + env.timeoutDuration) containerID env.selfID)]
    else []
  let rest := nodeIDs.filter (fun n => n != env.selfID)
  let benchedPart : List SenderEffect :=
    (rest.filter (fun n => env.benched n)).flatMap (fun n =>
      [.benchedMetric .pullQueryOp, .registerUnreachable,
       .handleInbound (.internalQueryFailed n env.chainID rid)])
  let sendSet := rest.filter (fun n => !(env.benched n))
  let sentTo := sendSet.filter (fun n => env.sendOK n)
  let failedPart : List SenderEffect :=
    (sendSet.filter (fun n => !(env.sendOK n))).flatMap (fun n =>
      [.registerUnreachable, .handleInbound (.internalQueryFailed n env.chainID rid)])
  selfPart ++ benchedPart ++ [.netSend .pullQueryOp sendSet] ++
    sentTo.map (fun n => .registerRequest n env.chainID rid .pullQueryOp) ++
    failedPart

/-- `Sender.SendPushQuery`: as `SendPullQuery`, carrying the container
bytes. -/
def sendPushQuery (env : SenderEnv) (nodeIDs : List Peer) (rid : Nat)
    (containerID : ID) (container : List Nat) : List SenderEffect :=
  let selfPart : List SenderEffect :=
    if nodeIDs.contains env.selfID then
      [.registerRequest env.selfID env.chainID rid .pushQueryOp,
       .handleInbound (.inboundPushQuery env.chainID rid
         (env.now + env.timeoutDuration) containerID container env.selfID)]
    else []
  let rest := nodeIDs.filter (fun n => n != env.selfID)
  let benchedPart : List SenderEffect :=
    (rest.filter (fun n => env.benched n)).flatMap (fun n =>
      [.benchedMetric .pushQueryOp, .registerUnreachable,
       .handleInbound (.internalQueryFailed n env.chainID rid)])
  let sendSet := rest.filter (fun n => !(env.benched n))
  let sentTo := sendSet.filter (fun n => env.sendOK n)
  let failedPart : List SenderEffect :=
    (sendSet.filter (fun n => !(env.sendOK n))).flatMap (fun n =>
      [.registerUnreachable, .handleInbound (.internalQueryFailed n env.chainID rid)])
  selfPart ++ benchedPart ++ [.netSend .pushQueryOp sendSet] ++
    sentTo.map (fun n => .registerRequest n env.chainID rid .pushQueryOp) ++
    failedPart

/-! ### Witness states -/

/-- Witness state: a three-block chain `1 ← 2 ← 3` (root 1 accepted)
with parameters K = 2, alpha = 2, beta = 1. -/
def exStore : List (ID × BlockData) :=
  [(1, ⟨0, .accepted, [1]⟩), (2, ⟨1, .processing, [2]⟩),
   (3, ⟨2, .processing, [3]⟩), (5, ⟨3, .processing, [5]⟩)]

/-- Witness state: the tree after issuing blocks 2 and 3. -/
def exTopo : Topological :=
  ((Topological.Initialize ⟨2, 2, 1, 1⟩ exStore 1).Add 2).Add 3

/-- Witness environment: a VM that knows no blocks and parses
nothing. -/
def exEnv : Env := ⟨fun _ => none, fun _ => none⟩

/-- Witness engine state: bootstrapped, one outstanding Get
(peer 4, request 9) for container 8, and one issuer blocked on 8. -/
def exEngine : Transitive :=
  { bootstrapped := true, params := ⟨2, 2, 1, 1⟩, consensus := exTopo,
    polls := [], blkReqs := ⟨[((4, 9), 8)]⟩, pending := [],
    blocked := ⟨[⟨[8], .issuerAct 8⟩], []⟩, requestID := 9 }

/-- A VM holding one block whose byte size alone fills the MultiPut
byte budget (its parent is unknown). -/
def hugeEnv : Env :=
  ⟨fun i => if i = 10 then some ⟨9, .processing, List.replicate 1677717 0⟩ else none,
   fun _ => none⟩

/-- A VM holding the two-block chain 10 ← 9 (9's parent 8 unknown). -/
def exAncEnv : Env :=
  ⟨fun i => if i = 10 then some ⟨9, .processing, [1, 2]⟩
            else if i = 9 then some ⟨8, .accepted, [3]⟩ else none,
   fun _ => none⟩

/-- Witness sender environment: node 3 on chain 2, nobody benched,
all sends delivered, timeout 10, clock 100. -/
def exSenderEnv : SenderEnv := ⟨3, 2, fun _ => false, fun _ => true, 10, 100⟩

/-! ### Map lemmas -/

theorem alookup_aset {α : Type} (m : List (ID × α)) (k i : ID) (v : α) :
    alookup (aset m k v) i = if k = i then some v else alookup m i := by
  induction m with
  | nil => by_cases h : k = i <;> simp [aset, alookup, h]
  | cons e rest ih =>
      obtain ⟨a, b⟩ := e
      by_cases h1 : a = k
      · subst h1
        by_cases h2 : a = i <;> simp [aset, alookup, h2]
      · by_cases h2 : a = i
        · subst h2
          have hk : ¬ k = a := fun h => h1 h.symm
          simp [aset, alookup, h1, hk]
        · simp [aset, alookup, h1, h2, ih]

theorem amem_head_of_lookup {α : Type} (m : List (ID × α)) (i : ID) {v : α}
    (h : alookup m i = some v) : amem m i = true := by
  simp [amem, h]

theorem aset_map_fst_of_mem {α : Type} (m : List (ID × α)) (k : ID) (v : α)
    (h : amem m k = true) : (aset m k v).map Prod.fst = m.map Prod.fst := by
  induction m with
  | nil => simp [amem, alookup] at h
  | cons e rest ih =>
      obtain ⟨a, b⟩ := e
      by_cases h1 : a = k
      · subst h1; simp [aset]
      · have h2 : amem rest k = true := by
          simpa [amem, alookup, h1] using h
        simp [aset, h1, ih h2]

theorem foldl_fixed {α β : Type} (f : β → α → β) (l : List α) (b : β)
    (h : ∀ a ∈ l, ∀ acc, f acc a = acc) : l.foldl f b = b := by
  induction l generalizing b with
  | nil => rfl
  | cons x xs ih =>
      simp only [List.foldl_cons]
      rw [h x (by simp)]
      exact ih b (fun a ha acc => h a (by simp [ha]) acc)

/-! ### Helper lemmas about the vote pipeline -/

/-- An empty vote stack marks the head node to falter and returns the
current tail. -/
theorem vote_nil (ts : Topological) (headNode : SnowmanBlock)
    (hhead : alookup ts.blocks ts.head = some headNode) :
    ts.vote [] =
      ({ ts with blocks := aset ts.blocks ts.head { headNode with shouldFalter := true } }, ts.tail) := by
  simp [Topological.vote, hhead]

/-- The preferred-descendent traversal stops at once on a node with no
Snowball instance. -/
theorem getPreferredDecendent_stop (ts : Topological) (fuel : Nat) (i : ID)
    (n : SnowmanBlock) (h : alookup ts.blocks i = some n) (hsb : n.sb = none) :
    ts.getPreferredDecendent (fuel + 1) i = i := by
  simp [Topological.getPreferredDecendent, h, hsb]

/-- When every vote in the bag is dropped, the Kahn graph and leaf list
are empty. -/
theorem calculateInDegree_all_dropped (ts : Topological) (vs : Bag)
    (hdrop : ∀ i ∈ vs.list, ts.droppedVote i = true) :
    ts.calculateInDegree vs = ([], []) := by
  unfold Topological.calculateInDegree
  apply foldl_fixed
  intro i hi acc
  have hd := hdrop i hi
  unfold Topological.droppedVote at hd
  rcases h1 : alookup ts.blocks i with _ | n
  · simp [h1]
  · rw [h1] at hd
    rcases h2 : n.blk with _ | b
    · simp [h1, h2]
    · have hdec : (ts.blkStatus b).decided = true := by
        simpa [h2] using hd
      simp [h1, h2, hdec]

/-- When every vote in the bag is dropped, the vote stack is empty. -/
theorem voteStackOf_all_dropped (ts : Topological) (vs : Bag)
    (hdrop : ∀ i ∈ vs.list, ts.droppedVote i = true) :
    ts.voteStackOf vs = [] := by
  unfold Topological.voteStackOf
  rw [calculateInDegree_all_dropped ts vs hdrop]
  rfl

/-- The shape of `RecordPoll` when the vote stack is empty: the only
change is the head node's falter flag. -/
theorem RecordPoll_empty_stack (ts : Topological) (vs : Bag)
    (headNode tailNode : SnowmanBlock)
    (hhead : alookup ts.blocks ts.head = some headNode)
    (htail : alookup ts.blocks ts.tail = some tailNode)
    (htsb : tailNode.sb = none)
    (hstack : ts.voteStackOf vs = []) :
    ts.RecordPoll vs =
      { ts with blocks := aset ts.blocks ts.head { headNode with shouldFalter := true } } := by
  have hN : alookup (aset ts.blocks ts.head { headNode with shouldFalter := true })
      ts.tail = some (if ts.head = ts.tail
        then { headNode with shouldFalter := true } else tailNode) := by
    rw [alookup_aset]
    by_cases h : ts.head = ts.tail <;> simp [h, htail]
  have hsbN : (if ts.head = ts.tail
      then { headNode with shouldFalter := true } else tailNode).sb = none := by
    by_cases h : ts.head = ts.tail
    · have heq : headNode = tailNode := by
        rw [h] at hhead; rw [hhead] at htail; exact Option.some.inj htail
      simp [h, heq, htsb]
    · simp [h, htsb]
  simp only [Topological.RecordPoll]
  rw [hstack, vote_nil ts headNode hhead]
  simp only
  rw [getPreferredDecendent_stop _ _ _ _ hN hsbN]

/-! ### C1 through C3 -/

/-- C1: if a `RecordPoll` round produces no (node, votes) frame that
reaches the alpha threshold (the vote stack is empty; in particular
for an empty vote bag), then the head node's should-falter flag is
set, no block status changes (no block is accepted or rejected), and
the preference returned by `Preference` is unchanged.  The hypotheses
other than the empty stack are structural invariants of the live tree:
the head is live, and the tail is a live leaf node. -/
theorem RecordPoll_no_quorum_falters (ts : Topological) (vs : Bag)
    (headNode tailNode : SnowmanBlock)
    (hhead : alookup ts.blocks ts.head = some headNode)
    (htail : alookup ts.blocks ts.tail = some tailNode)
    (htsb : tailNode.sb = none)
    (hstack : ts.voteStackOf vs = []) :
    alookup (ts.RecordPoll vs).blocks ts.head =
        some { headNode with shouldFalter := true } ∧
    (ts.RecordPoll vs).store = ts.store ∧
    (ts.RecordPoll vs).Preference = ts.Preference := by
  rw [RecordPoll_empty_stack ts vs headNode tailNode hhead htail htsb hstack]
  refine ⟨?_, rfl, rfl⟩
  rw [alookup_aset]
  simp



/-- Witness for C1, at a vote bag holding a single vote (below
alpha = 2) for block 3. -/
theorem RecordPoll_no_quorum_falters_witness :
    alookup (exTopo.RecordPoll [(3, 1)]).blocks exTopo.head =
        some { (⟨none, [2], some (Snowball.init 2), false⟩ : SnowmanBlock) with shouldFalter := true } ∧
    (exTopo.RecordPoll [(3, 1)]).store = exTopo.store ∧
    (exTopo.RecordPoll [(3, 1)]).Preference = exTopo.Preference :=
  RecordPoll_no_quorum_falters exTopo [(3, 1)]
    ⟨none, [2], some (Snowball.init 2), false⟩ ⟨some 3, [], none, false⟩
    (by decide) (by decide) (by decide) (by decide)

/-- C2: a `RecordPoll` whose vote multiset holds only ids that are not
in the live tree or refer to decided blocks drops all votes and leaves
the block map (its keys and every node's block, children and Snowball
state), every block status, the head and the tail unchanged.  (The
head node's should-falter flag is set, exactly as for the empty bag of
C1; the flag is not among the listed components.) -/
theorem RecordPoll_unknown_votes_noop (ts : Topological) (vs : Bag)
    (headNode tailNode : SnowmanBlock)
    (hhead : alookup ts.blocks ts.head = some headNode)
    (htail : alookup ts.blocks ts.tail = some tailNode)
    (htsb : tailNode.sb = none)
    (hdrop : ∀ i ∈ vs.list, ts.droppedVote i = true) :
    (ts.RecordPoll vs).blocks.map Prod.fst = ts.blocks.map Prod.fst ∧
    (∀ i n2, alookup (ts.RecordPoll vs).blocks i = some n2 →
       ∃ n1, alookup ts.blocks i = some n1 ∧ n2.blk = n1.blk ∧
         n2.children = n1.children ∧ n2.sb = n1.sb) ∧
    (ts.RecordPoll vs).store = ts.store ∧
    (ts.RecordPoll vs).head = ts.head ∧
    (ts.RecordPoll vs).Preference = ts.Preference := by
  have hstack := voteStackOf_all_dropped ts vs hdrop
  rw [RecordPoll_empty_stack ts vs headNode tailNode hhead htail htsb hstack]
  refine ⟨?_, ?_, rfl, rfl, rfl⟩
  · exact aset_map_fst_of_mem _ _ _ (amem_head_of_lookup _ _ hhead)
  · intro i n2 hn2
    rw [alookup_aset] at hn2
    by_cases h : ts.head = i
    · subst h
      exact ⟨headNode, hhead, by simp at hn2; rw [← hn2], by simp at hn2; rw [← hn2],
             by simp at hn2; rw [← hn2]⟩
    · rw [if_neg h] at hn2
      exact ⟨n2, hn2, rfl, rfl, rfl⟩

/-- Witness for C2, at a vote bag holding five votes for an id that is
not in the live tree. -/
theorem RecordPoll_unknown_votes_noop_witness :
    (exTopo.RecordPoll [(9, 5)]).blocks.map Prod.fst = exTopo.blocks.map Prod.fst ∧
    (∀ i n2, alookup (exTopo.RecordPoll [(9, 5)]).blocks i = some n2 →
       ∃ n1, alookup exTopo.blocks i = some n1 ∧ n2.blk = n1.blk ∧
         n2.children = n1.children ∧ n2.sb = n1.sb) ∧
    (exTopo.RecordPoll [(9, 5)]).store = exTopo.store ∧
    (exTopo.RecordPoll [(9, 5)]).head = exTopo.head ∧
    (exTopo.RecordPoll [(9, 5)]).Preference = exTopo.Preference :=
  RecordPoll_unknown_votes_noop exTopo [(9, 5)]
    ⟨none, [2], some (Snowball.init 2), false⟩ ⟨some 3, [], none, false⟩
    (by decide) (by decide) (by decide) (by decide)

/-- A child added through `addChild` is among the node's children. -/
theorem addChild_mem (n : SnowmanBlock) (c : ID) :
    c ∈ (n.addChild c).children := by
  unfold SnowmanBlock.addChild
  cases n.sb <;> simp

/-- C3: adding a block whose parent is in the live tree attaches it as
a child of the parent node, and afterwards the preference equals the
new block's id exactly when the parent was the preference (tail)
before the call; otherwise the preference is unchanged.  The freshness
hypothesis (the new id is not yet a key of the live tree) and the
liveness of the tail are invariants of the engine (`Add` is guarded by
`Issued`). -/
theorem Add_attaches_and_extends_tail (ts : Topological) (blkID : ID)
    (parentNode : SnowmanBlock)
    (hpar : alookup ts.blocks (ts.blkParent blkID) = some parentNode)
    (hfresh : alookup ts.blocks blkID = none)
    (htail : amem ts.blocks ts.tail = true) :
    (∃ p2, alookup (ts.Add blkID).blocks (ts.blkParent blkID) = some p2 ∧
       blkID ∈ p2.children) ∧
    ((ts.Add blkID).Preference = blkID ↔ ts.Preference = ts.blkParent blkID) ∧
    (ts.Preference ≠ ts.blkParent blkID →
       (ts.Add blkID).Preference = ts.Preference) := by
  have hne : ts.blkParent blkID ≠ blkID := by
    intro h; rw [h, hfresh] at hpar; exact Option.noConfusion hpar
  have htailne : ts.tail ≠ blkID := by
    intro h
    rw [amem, h, hfresh] at htail
    simp at htail
  simp only [Topological.Add]
  rw [hpar]
  simp only
  constructor
  · refine ⟨parentNode.addChild blkID, ?_, addChild_mem parentNode blkID⟩
    rw [alookup_aset, if_neg, alookup_aset, if_pos rfl]
    exact fun h => hne h.symm
  · constructor
    · unfold Topological.Preference
      simp only
      constructor
      · intro h
        by_cases hc : ts.tail = ts.blkParent blkID
        · exact hc
        · rw [if_neg hc] at h
          exact absurd h htailne
      · intro h; rw [if_pos h]
    · intro h
      unfold Topological.Preference at h ⊢
      simp only
      rw [if_neg (fun hc => h hc)]

/-! ### Bag counting lemmas (toward C4) -/

theorem addCount_count (b : Bag) (i j : ID) (n : Nat) :
    (b.addCount i n).count j = b.count j + (if i = j then n else 0) := by
  unfold Bag.addCount
  by_cases hn : n = 0
  · subst hn; simp
  · rw [if_neg hn]
    unfold Bag.count
    rw [alookup_aset]
    by_cases h : i = j
    · subst h; simp
    · simp [h]

theorem addList_count (l : List ID) : ∀ (b : Bag) (j : ID),
    (b.addList l).count j = b.count j + l.count j := by
  induction l with
  | nil => intro b j; simp [Bag.addList]
  | cons x xs ih =>
      intro b j
      have hstep : (b.addList (x :: xs)) = (b.addCount x 1).addList xs := rfl
      rw [hstep, ih, addCount_count, List.count_cons]
      by_cases h : x = j
      · subst h; simp [Nat.add_assoc, Nat.add_comm]
      · have hbeq : ¬ (x == j) = true := by simp [h]
        simp [h, hbeq]

/-- `amem` agrees with membership among the keys. -/
theorem amem_iff_mem_keys {α : Type} (m : List (ID × α)) (k : ID) :
    amem m k = true ↔ k ∈ m.map Prod.fst := by
  induction m with
  | nil => simp [amem, alookup]
  | cons e rest ih =>
      obtain ⟨a, b⟩ := e
      by_cases h : a = k
      · subst h; simp [amem, alookup]
      · have hne : ¬ k = a := fun hk => h hk.symm
        simp [amem, alookup, h, hne] at ih ⊢
        exact ih

/-- The keys after `aset`: unchanged when present, appended when new. -/
theorem aset_map_fst {α : Type} (m : List (ID × α)) (k : ID) (v : α) :
    (aset m k v).map Prod.fst =
      if amem m k then m.map Prod.fst else m.map Prod.fst ++ [k] := by
  induction m with
  | nil => simp [aset, amem, alookup]
  | cons e rest ih =>
      obtain ⟨a, b⟩ := e
      by_cases h : a = k
      · subst h; simp [aset, amem, alookup]
      · have hma : amem ((a, b) :: rest) k = amem rest k := by
          simp [amem, alookup, h]
        simp only [aset, if_neg h, List.map_cons, ih, hma]
        by_cases h2 : amem rest k = true <;> simp [h2]

/-- Keys stay duplicate-free under `aset`. -/
theorem aset_keys_nodup {α : Type} (m : List (ID × α)) (k : ID) (v : α)
    (h : (m.map Prod.fst).Nodup) : ((aset m k v).map Prod.fst).Nodup := by
  rw [aset_map_fst]
  by_cases hm : amem m k = true
  · simp [hm, h]
  · have hk : k ∉ m.map Prod.fst := fun hmem =>
      hm ((amem_iff_mem_keys m k).mpr hmem)
    simp [hm, List.nodup_append, h, hk]

theorem addCount_keys_nodup (b : Bag) (i : ID) (n : Nat)
    (h : (b.map Prod.fst).Nodup) : ((b.addCount i n).map Prod.fst).Nodup := by
  unfold Bag.addCount
  by_cases hn : n = 0
  · simp [hn, h]
  · rw [if_neg hn]; exact aset_keys_nodup b i _ h

theorem addList_keys_nodup (l : List ID) : ∀ (b : Bag),
    (b.map Prod.fst).Nodup → ((b.addList l).map Prod.fst).Nodup := by
  induction l with
  | nil => intro b h; exact h
  | cons x xs ih =>
      intro b h
      exact ih (b.addCount x 1) (addCount_keys_nodup b x 1 h)

theorem mem_of_alookup {α : Type} (m : List (ID × α)) (i : ID) (v : α)
    (h : alookup m i = some v) : (i, v) ∈ m := by
  induction m with
  | nil => simp [alookup] at h
  | cons e rest ih =>
      obtain ⟨a, b⟩ := e
      by_cases ha : a = i
      · subst ha
        simp only [alookup, if_pos rfl] at h
        simp [Option.some.inj h]
      · simp only [alookup, if_neg ha] at h
        simp [ih h]

theorem alookup_of_mem_nodup {α : Type} (m : List (ID × α)) (i : ID) (v : α)
    (hnd : (m.map Prod.fst).Nodup) (h : (i, v) ∈ m) : alookup m i = some v := by
  induction m with
  | nil => simp at h
  | cons e rest ih =>
      obtain ⟨a, b⟩ := e
      simp only [List.map_cons, List.nodup_cons] at hnd
      rcases List.mem_cons.mp h with heq | hmem
      · rw [← heq]
        simp [alookup]
      · have ha : a ≠ i := by
          intro hai
          subst hai
          exact hnd.1 (List.mem_map.mpr ⟨(a, v), hmem, rfl⟩)
        simp only [alookup, if_neg ha]
        exact ih hnd.2 hmem

/-- Membership in the threshold set is exactly reaching the threshold
count (for a positive threshold and duplicate-free keys). -/
theorem mem_threshold_iff (b : Bag) (hb : (b.map Prod.fst).Nodup)
    (t : Nat) (ht : 0 < t) (i : ID) :
    i ∈ b.threshold t ↔ t ≤ b.count i := by
  unfold Bag.threshold
  constructor
  · intro h
    rcases List.mem_map.mp h with ⟨⟨a, c⟩, hmem, hfst⟩
    rcases List.mem_filter.mp hmem with ⟨hmemb, hc⟩
    have ha : a = i := hfst
    subst ha
    have hl := alookup_of_mem_nodup b a c hb hmemb
    unfold Bag.count
    rw [hl]
    simpa using hc
  · intro h
    unfold Bag.count at h
    rcases hl : alookup b i with _ | c
    · rw [hl] at h
      simp at h
      omega
    · rw [hl] at h
      simp at h
      exact List.mem_map.mpr
        ⟨(i, c), List.mem_filter.mpr ⟨mem_of_alookup b i c hl, by simpa⟩, rfl⟩

/-- `addList` distributes over append. -/
theorem addList_append (b : Bag) (l1 l2 : List ID) :
    b.addList (l1 ++ l2) = (b.addList l1).addList l2 := by
  unfold Bag.addList
  rw [List.foldl_append]

/-- Count of a flattened reply sequence with duplicate-free replies:
the number of replies that report the id. -/
theorem count_allReported (replies : List (Peer × List ID)) (i : ID)
    (h : ∀ r ∈ replies, (Prod.snd r).Nodup) :
    (allReported replies).count i = replies.countP (fun r => decide (i ∈ r.2)) := by
  induction replies with
  | nil => simp [allReported]
  | cons r rest ih =>
      have hflat : allReported (r :: rest) = r.2 ++ allReported rest := by
        simp [allReported]
      rw [hflat, List.count_append, List.countP_cons,
        ih (fun x hx => h x (by simp [hx]))]
      have h2 : r.2.count i = if i ∈ r.2 then 1 else 0 := by
        by_cases hm : i ∈ r.2
        · rw [if_pos hm]
          exact List.count_eq_one_of_mem (h r (by simp)) hm
        · rw [if_neg hm]
          exact List.count_eq_zero_of_not_mem hm
      rw [h2]
      by_cases hm : i ∈ r.2 <;> simp [hm, Nat.add_comm]

/-- Folding `IdSet.add` over a duplicate-free list of fresh elements
appends the list. -/
theorem foldl_IdSet_add (l : List ID) : ∀ (acc : IdSet),
    (∀ x ∈ l, x ∉ acc) → l.Nodup → l.foldl IdSet.add acc = acc ++ l := by
  induction l with
  | nil => intro acc _ _; simp
  | cons x xs ih =>
      intro acc hfresh hnd
      have hcx : acc.contains x = false := by
        simpa using hfresh x (by simp)
      have hstep : (x :: xs).foldl IdSet.add acc = xs.foldl IdSet.add (acc ++ [x]) := by
        simp only [List.foldl_cons, IdSet.add, hcx]
        simp
      rw [hstep, ih (acc ++ [x]) ?_ (List.nodup_cons.mp hnd).2]
      · simp
      · intro y hy
        simp only [List.mem_append, List.mem_singleton]
        rintro (hacc | hx)
        · exact hfresh y (by simp [hy]) hacc
        · exact (List.nodup_cons.mp hnd).1 (hx ▸ hy)

/-- One step of `runAccepted`. -/
theorem runAccepted_cons (b : Bootstrapper) (v : Peer) (ids : List ID)
    (rest : List (Peer × List ID)) :
    b.runAccepted ((v, ids) :: rest) = (b.Accepted v ids).runAccepted rest := rfl

/-- Processing one reply from each pending beacon (in any order)
empties the pending set, accumulates one count per (beacon, id) pair,
and hands the bag's threshold set to `ForceAccepted`. -/
theorem runAccepted_complete (replies : List (Peer × List ID)) :
    ∀ (b : Bootstrapper),
      b.pendingAccepted.Nodup →
      List.Perm (replies.map Prod.fst) b.pendingAccepted →
      replies ≠ [] →
      b.runAccepted replies =
        { b with pendingAccepted := []
                 accepted := b.accepted.addList (allReported replies)
                 forceAccepted :=
                   some ((b.accepted.addList (allReported replies)).threshold b.alpha) } := by
  induction replies with
  | nil => intro b _ _ hne; exact absurd rfl hne
  | cons r rest ih =>
      intro b hnd hperm _
      obtain ⟨v, ids⟩ := r
      have hv : v ∈ b.pendingAccepted := hperm.mem_iff.mp (by simp)
      have hcont : b.pendingAccepted.contains v = true := by
        simpa using hv
      have hremove : IdSet.remove b.pendingAccepted v = b.pendingAccepted.erase v := by
        unfold IdSet.remove
        rw [List.Nodup.erase_eq_filter hnd v]
      have hperm1 : List.Perm (rest.map Prod.fst) (b.pendingAccepted.erase v) := by
        have h1 : List.Perm (v :: rest.map Prod.fst) b.pendingAccepted := by
          simpa using hperm
        exact (List.perm_cons v).mp (h1.trans (List.perm_cons_erase hv))
      have hflat : allReported ((v, ids) :: rest) = ids ++ allReported rest := by
        simp [allReported]
      rw [runAccepted_cons]
      unfold Bootstrapper.Accepted
      rw [if_neg (by simpa using hv)]
      simp only [hremove]
      rcases rest with _ | ⟨r2, rest2⟩
      · -- last reply: the pending set empties and ForceAccepted fires
        have herase : b.pendingAccepted.erase v = [] :=
          (List.perm_nil.mp (by simpa using hperm1.symm))
        simp [Bootstrapper.runAccepted, herase, hflat, allReported]
      · -- more replies pending: the else branch, then the induction
        have hlen : (b.pendingAccepted.erase v).length ≠ 0 := by
          rw [← hperm1.length_eq]
          simp
        rw [if_neg (by simpa using hlen)]
        rw [ih _ (hnd.erase v) (by simpa using hperm1) (by simp)]
        simp [hflat, addList_append]

/-! ### C4 -/

/-- C4 counterexample: the claim says replies are aggregated weighted
by beacon stake.  With a single beacon of stake 5 and alpha 2, the
beacon reports container 7, whose total reporting stake weight is
5 ≥ alpha; yet the source counts one per beacon, so 7 does not reach
the threshold and the set passed to `ForceAccepted` is empty.  The
claim's iff is false at this input. -/
theorem Accepted_stake_weight_counterexample :
    ¬ (7 ∈ (((Bootstrapper.Initialize [1] 2).runAccepted [(1, [7])]).forceAccepted.getD []) ↔
        2 ≤ beaconWeightReporting (fun _ => 5) [(1, [7])] 7) := by
  decide

/-- C4 amended: during bootstrap accepted-query, replies are
aggregated by beacon count (each beacon contributes one, regardless of
stake), and a container id enters the set passed to `ForceAccepted`
exactly when the number of beacons reporting it as accepted reaches
alpha — quantified over every sequence of `Accepted` replies in which
each pending beacon replies once (in any order, each reply a
duplicate-free id set, with a positive alpha). -/
theorem Accepted_threshold_by_beacon_count (beacons : List Peer) (alpha : Nat)
    (replies : List (Peer × List ID))
    (hnd : beacons.Nodup) (hne : beacons ≠ [])
    (hcov : List.Perm (replies.map Prod.fst) beacons)
    (hreply : ∀ r ∈ replies, (Prod.snd r).Nodup)
    (halpha : 0 < alpha) (i : ID) :
    ∃ s, ((Bootstrapper.Initialize beacons alpha).runAccepted replies).forceAccepted
           = some s ∧
      (i ∈ s ↔ alpha ≤ replies.countP (fun r => decide (i ∈ r.2))) := by
  have hpend : (Bootstrapper.Initialize beacons alpha).pendingAccepted = beacons := by
    unfold Bootstrapper.Initialize
    simp only
    exact foldl_IdSet_add beacons [] (by simp) hnd
  have hrepne : replies ≠ [] := by
    intro h
    subst h
    simp only [List.map_nil] at hcov
    exact hne (List.perm_nil.mp hcov.symm)
  have hrun := runAccepted_complete replies (Bootstrapper.Initialize beacons alpha)
    (by rw [hpend]; exact hnd) (by rw [hpend]; exact hcov) hrepne
  rw [hrun]
  refine ⟨_, rfl, ?_⟩
  have hkeys : (((Bootstrapper.Initialize beacons alpha).accepted.addList
      (allReported replies)).map Prod.fst).Nodup := by
    exact addList_keys_nodup (allReported replies) _ (by simp [Bootstrapper.Initialize, Bag.empty])
  rw [show (Bootstrapper.Initialize beacons alpha).alpha = alpha from rfl]
  rw [mem_threshold_iff _ hkeys _ halpha i]
  have hcount : ((Bootstrapper.Initialize beacons alpha).accepted.addList
      (allReported replies)).count i = (allReported replies).count i := by
    rw [addList_count]
    simp [Bootstrapper.Initialize, Bag.empty, Bag.count, alookup]
  rw [hcount, count_allReported replies i hreply]

/-- Witness for C4 (amended): two beacons of one reply each, both
reporting container 7, with alpha 2. -/
theorem Accepted_threshold_by_beacon_count_witness :
    ∃ s, ((Bootstrapper.Initialize [1, 2] 2).runAccepted
            [(1, [7]), (2, [7])]).forceAccepted = some s ∧
      (7 ∈ s ↔ 2 ≤ ([(1, [7]), (2, [7])] : List (Peer × List ID)).countP
                      (fun r => decide (7 ∈ r.2))) :=
  Accepted_threshold_by_beacon_count [1, 2] 2 [(1, [7]), (2, [7])]
    (by decide) (by decide) (by decide) (by decide) (by decide) 7

/-- Witness for C3: adding block 5 (parent 3, the current tail) to the
witness tree. -/
theorem Add_attaches_and_extends_tail_witness :
    (∃ p2, alookup (exTopo.Add 5).blocks (exTopo.blkParent 5) = some p2 ∧
       5 ∈ p2.children) ∧
    ((exTopo.Add 5).Preference = 5 ↔ exTopo.Preference = exTopo.blkParent 5) ∧
    (exTopo.Preference ≠ exTopo.blkParent 5 →
       (exTopo.Add 5).Preference = exTopo.Preference) :=
  Add_attaches_and_extends_tail exTopo 5 ⟨some 3, [], none, false⟩
    (by decide) (by decide) (by decide)

end OdysseyGo

/-! ### C5, C6, C10 -/

namespace OdysseyGo



/-- C5: a `Chits` whose vote set does not hold exactly one vote leaves
the engine in the very state `QueryFailed` produces (the source
delegates to `QueryFailed`; before bootstrapping both drop the
message, so the equality needs no bootstrap hypothesis). -/
theorem Chits_non_singleton_is_query_failure (t : Transitive) (env : Env)
    (fuel : Nat) (vdr : Peer) (rid : Nat) (votes : IdSet)
    (h : votes.length ≠ 1) :
    t.Chits env fuel vdr rid votes = (t.QueryFailed vdr rid, []) := by
  unfold Transitive.Chits
  by_cases hb : t.bootstrapped
  · rw [if_neg (by simp [hb]), if_pos h]
  · rw [if_pos (by simp [hb])]
    unfold Transitive.QueryFailed
    rw [if_pos (by simp [hb])]

/-- Witness for C5: an empty vote set. -/
theorem Chits_non_singleton_witness :
    exEngine.Chits exEnv 5 4 9 [] = (exEngine.QueryFailed 4 9, []) :=
  Chits_non_singleton_is_query_failure exEngine exEnv 5 4 9 [] (by decide)

/-- The resolve fold only ever appends to the released queue. -/
theorem resolveFold_mono (i : ID) (l : List PendingAction) :
    ∀ (acc : List PendingAction × List EngineAction) (a : EngineAction),
      a ∈ acc.2 → a ∈ (l.foldl (resolveStep i) acc).2 := by
  induction l with
  | nil => intro acc a h; exact h
  | cons q rest ih =>
      intro acc a h
      rw [List.foldl_cons]
      apply ih
      unfold resolveStep
      split
      · by_cases hf : (List.filter (fun j => j != i) q.deps).isEmpty = true <;>
          simp [hf, h]
      · exact h

/-- An action whose only dependency is the resolved id is released by
the fold. -/
theorem resolveFold_releases (i : ID) (p : PendingAction) (hd : p.deps = [i])
    (l : List PendingAction) :
    ∀ acc, p ∈ l → p.act ∈ (l.foldl (resolveStep i) acc).2 := by
  induction l with
  | nil => intro acc h; simp at h
  | cons q rest ih =>
      intro acc hmem
      rw [List.foldl_cons]
      rcases List.mem_cons.mp hmem with heq | hmem2
      · subst heq
        apply resolveFold_mono
        unfold resolveStep
        rw [hd]
        simp
      · exact ih _ hmem2

/-- An action blocked only on the resolved id ends up released. -/
theorem resolve_releases (b : Blocker) (i : ID) (p : PendingAction)
    (hp : p ∈ b.pending) (hd : p.deps = [i]) :
    p.act ∈ (b.resolve i).released := by
  unfold Blocker.resolve
  simp only [List.mem_append]
  exact Or.inr (resolveFold_releases i p hd b.pending ([], []) hp)

/-- C6: a `Put` received after bootstrapping whose bytes fail to parse
leaves the engine exactly as `GetFailed` does: when an outstanding
request keyed by (peer, request id) exists it is removed and its
container id abandoned — any action blocked only on that id is
released — and when no such request exists the state is unchanged. -/
theorem Put_parse_failure_is_get_failed (t : Transitive) (env : Env)
    (fuel : Nat) (vdr : Peer) (rid : Nat) (blkID : ID) (blkBytes : List Nat)
    (hboot : t.bootstrapped = true)
    (hparse : env.vmParse blkBytes = none) :
    t.Put env fuel vdr rid blkID blkBytes = (t.GetFailed vdr rid, []) ∧
    (alookup t.blkReqs.reqs (vdr, rid) = none → t.GetFailed vdr rid = t) ∧
    (∀ cid, alookup t.blkReqs.reqs (vdr, rid) = some cid →
       (t.GetFailed vdr rid =
          { t with blkReqs := ⟨aerase t.blkReqs.reqs (vdr, rid)⟩
                   blocked := t.blocked.abandon cid } ∧
        ∀ p ∈ t.blocked.pending, p.deps = [cid] →
          p.act ∈ (t.GetFailed vdr rid).blocked.released)) := by
  refine ⟨?_, ?_, ?_⟩
  · unfold Transitive.Put
    rw [if_neg (by simp [hboot]), hparse]
  · intro hnone
    unfold Transitive.GetFailed Requests.remove
    rw [if_neg (by simp [hboot]), hnone]
  · intro cid hsome
    have hgf : t.GetFailed vdr rid =
        { t with blkReqs := ⟨aerase t.blkReqs.reqs (vdr, rid)⟩
                 blocked := t.blocked.abandon cid } := by
      unfold Transitive.GetFailed Requests.remove
      rw [if_neg (by simp [hboot]), hsome]
    refine ⟨hgf, ?_⟩
    intro p hp hd
    rw [hgf]
    exact resolve_releases t.blocked cid p hp hd

/-- Witness for C6: unparseable bytes, with request (4, 9) ↦ 8
outstanding and an issuer blocked on 8. -/
theorem Put_parse_failure_is_get_failed_witness :
    exEngine.Put exEnv 5 4 9 8 [0] = (exEngine.GetFailed 4 9, []) ∧
    (alookup exEngine.blkReqs.reqs (4, 9) = none → exEngine.GetFailed 4 9 = exEngine) ∧
    (∀ cid, alookup exEngine.blkReqs.reqs (4, 9) = some cid →
       (exEngine.GetFailed 4 9 =
          { exEngine with blkReqs := ⟨aerase exEngine.blkReqs.reqs (4, 9)⟩
                          blocked := exEngine.blocked.abandon cid } ∧
        ∀ p ∈ exEngine.blocked.pending, p.deps = [cid] →
          p.act ∈ (exEngine.GetFailed 4 9).blocked.released)) :=
  Put_parse_failure_is_get_failed exEngine exEnv 5 4 9 8 [0] (by decide) rfl

/-! ### C7 -/

/-- Elements of `aset` are the new pair or old elements. -/
theorem mem_aset {κ α : Type} [DecidableEq κ] (m : List (κ × α)) (k : κ)
    (v : α) (e : κ × α) (h : e ∈ aset m k v) : e = (k, v) ∨ e ∈ m := by
  induction m with
  | nil => simpa [aset] using h
  | cons f rest ih =>
      by_cases h1 : f.1 = k
      · rw [show f = (f.1, f.2) from rfl, aset, if_pos h1] at h
        rcases List.mem_cons.mp h with heq | hmem
        · exact Or.inl heq
        · exact Or.inr (by simp [hmem])
      · rw [show f = (f.1, f.2) from rfl, aset, if_neg h1] at h
        rcases List.mem_cons.mp h with heq | hmem
        · exact Or.inr (by simp [heq])
        · rcases ih hmem with h2 | h2
          · exact Or.inl h2
          · exact Or.inr (by simp [h2])

/-- `aset` with a value no existing entry carries keeps the
one-value-per-entry discipline. -/
theorem pairwise_aset_fresh {κ : Type} [DecidableEq κ]
    (m : List (κ × ID)) (k : κ) (v : ID)
    (h : m.Pairwise (fun e1 e2 => e1.2 ≠ e2.2))
    (hfresh : ∀ e ∈ m, e.2 ≠ v) :
    (aset m k v).Pairwise (fun e1 e2 => e1.2 ≠ e2.2) := by
  induction m with
  | nil => simp [aset]
  | cons f rest ih =>
      rcases List.pairwise_cons.mp h with ⟨hf, hrest⟩
      by_cases h1 : f.1 = k
      · rw [show f = (f.1, f.2) from rfl, aset, if_pos h1]
        refine List.pairwise_cons.mpr ⟨?_, hrest⟩
        intro e he
        exact fun hv => (hfresh e (by simp [he]) (hv.symm)).elim
      · rw [show f = (f.1, f.2) from rfl, aset, if_neg h1]
        refine List.pairwise_cons.mpr ⟨?_, ?_⟩
        · intro e he
          rcases mem_aset rest k v e he with heq | hmem
          · rw [heq]
            exact fun hv => hfresh f (by simp) hv
          · exact hf e hmem
        · exact ih hrest (fun e he => hfresh e (by simp [he]))

/-- `aerase` only drops entries. -/
theorem aerase_sublist {κ α : Type} [DecidableEq κ] (m : List (κ × α)) (k : κ) :
    (aerase m k).Sublist m := by
  induction m with
  | nil => simp [aerase]
  | cons f rest ih =>
      rw [show f = (f.1, f.2) from rfl, aerase]
      by_cases h1 : f.1 = k
      · rw [if_pos h1]
        exact (List.sublist_cons_self _ _)
      · rw [if_neg h1]
        exact ih.cons₂ _

/-- One request-table primitive preserves the at-most-one-Get-per-id
invariant. -/
theorem applyReqOp_preserves (t : Transitive) (op : ReqOp)
    (h : ReqsAtMostOne t.blkReqs) : ReqsAtMostOne (applyReqOp t op).blkReqs := by
  cases op with
  | sendOp vdr blkID =>
      simp only [applyReqOp, Transitive.sendRequest]
      by_cases hc : t.blkReqs.contains blkID = true
      · rw [if_pos hc]
        exact h
      · rw [if_neg hc]
        refine pairwise_aset_fresh _ _ _ h ?_
        intro e he hv
        apply hc
        unfold Requests.contains
        rw [List.any_eq_true]
        exact ⟨e, he, by simp [hv]⟩
  | removeOp vdr rid =>
      simp only [applyReqOp, Requests.remove]
      rcases hl : alookup t.blkReqs.reqs (vdr, rid) with _ | cid
      · exact h
      · exact List.Pairwise.sublist (aerase_sublist _ _) h
  | removeAnyOp blkID =>
      simp only [applyReqOp, Requests.removeAny]
      exact List.Pairwise.sublist (List.filter_sublist _) h

/-- Any sequence of request-table primitives preserves the
invariant. -/
theorem applyReqOps_preserves (ops : List ReqOp) : ∀ (t : Transitive),
    ReqsAtMostOne t.blkReqs → ReqsAtMostOne (applyReqOps t ops).blkReqs := by
  induction ops with
  | nil => intro t h; exact h
  | cons op rest ih =>
      intro t h
      exact ih (applyReqOp t op) (applyReqOp_preserves t op h)

/-- `removeAny` leaves no request for the removed container id. -/
theorem removeAny_contains_false (r : Requests) (blkID : ID) :
    (r.removeAny blkID).contains blkID = false := by
  unfold Requests.removeAny Requests.contains
  rw [Bool.eq_false_iff]
  intro hany
  rcases List.any_eq_true.mp hany with ⟨e, he, hbeq⟩
  rcases List.mem_filter.mp he with ⟨_, hne⟩
  simp at hbeq hne
  exact hne hbeq

/-- C7: the outstanding-request table holds at most one Get per
container id, through any sequence of the primitives that write it
(reading the engine source, every write to `blkReqs` is one of the
three primitives of `ReqOp`): the invariant is preserved by any such
sequence; `sendRequest` is a no-op when a request for the container is
already outstanding; and issuing a block (`insert`) removes every
outstanding request for it. -/
theorem blkReqs_at_most_one_get_per_id :
    (∀ (t : Transitive) (ops : List ReqOp), ReqsAtMostOne t.blkReqs →
        ReqsAtMostOne (applyReqOps t ops).blkReqs) ∧
    (∀ (t : Transitive) (vdr : Peer) (blkID : ID),
        t.blkReqs.contains blkID = true → t.sendRequest vdr blkID = (t, [])) ∧
    (∀ (env : Env) (t : Transitive) (blk : ID × BlockData),
        (Transitive.insert env t blk).blkReqs.contains blk.1 = false) := by
  refine ⟨fun t ops h => applyReqOps_preserves ops t h, ?_, ?_⟩
  · intro t vdr blkID hc
    unfold Transitive.sendRequest
    rw [if_pos hc]
  · intro env t blk
    have hb : (Transitive.insert env t blk).blkReqs = t.blkReqs.removeAny blk.1 := by
      unfold Transitive.insert
      simp only
    rw [hb]
    exact removeAny_contains_false t.blkReqs blk.1

/-- Witness for C7: a send for a fresh id then a removeAny, starting
from the witness engine; a send for the already-outstanding id 8; an
insert of block 8. -/
theorem blkReqs_at_most_one_get_per_id_witness :
    ReqsAtMostOne (applyReqOps exEngine
        [ReqOp.sendOp 4 11, ReqOp.removeAnyOp 8]).blkReqs ∧
    exEngine.sendRequest 4 8 = (exEngine, []) ∧
    (Transitive.insert exEnv exEngine (8, ⟨3, .processing, [8]⟩)).blkReqs.contains 8 = false :=
  ⟨blkReqs_at_most_one_get_per_id.1 exEngine [ReqOp.sendOp 4 11, ReqOp.removeAnyOp 8]
      (by unfold ReqsAtMostOne; decide),
   blkReqs_at_most_one_get_per_id.2.1 exEngine 4 8 (by decide),
   blkReqs_at_most_one_get_per_id.2.2 exEnv exEngine (8, ⟨3, .processing, [8]⟩)⟩

/-- C10: handling a `Get` leaves the whole engine state — consensus
tree, outstanding requests, pending set, blocked graph, polls —
unchanged; the only effect is the optional outbound Put reply. -/
theorem Get_leaves_state_unchanged (t : Transitive) (env : Env)
    (vdr : Peer) (rid : Nat) (blkID : ID) :
    (t.Get env vdr rid blkID).1 = t := by
  unfold Transitive.Get
  cases env.vmGet blkID <;> rfl

end OdysseyGo

/-! ### C8 -/

namespace OdysseyGo

/-- Unfolding facts for `ancestryBytes`. -/
theorem ancestryBytes_succ (env : Env) (blkID : ID) (k : Nat) :
    ancestryBytes env blkID (k+1) =
      ancestryBytes env blkID k ++ [env.bytesOf (env.parentIter blkID (k+1))] := by
  unfold ancestryBytes
  rw [List.range_succ, List.map_append]
  rfl

theorem ancestryBytes_length (env : Env) (blkID : ID) (m : Nat) :
    (ancestryBytes env blkID m).length = m + 1 := by
  unfold ancestryBytes
  simp

theorem multiPutLen_append_one (l : List (List Nat)) (b : List Nat) :
    multiPutLen (l ++ [b]) = multiPutLen l + (intLen + b.length) := by
  unfold multiPutLen
  simp

/-- The fetch loop returns the accumulator unchanged when the clock
budget is spent. -/
theorem fetchAncestors_stop_time (env : Env) (timeOk : Nat → Bool) (g : Nat)
    (blkID : ID) (lenAcc : Nat) (acc : List (List Nat))
    (ht : timeOk acc.length = false) :
    fetchAncestors env timeOk (g+1) blkID lenAcc acc = acc := by
  unfold fetchAncestors
  rw [if_pos ht]

/-- The fetch loop stops at the first ancestor with Unknown status. -/
theorem fetchAncestors_stop_unknown (env : Env) (timeOk : Nat → Bool) (g : Nat)
    (blkID : ID) (lenAcc : Nat) (acc : List (List Nat))
    (hs : env.statusOf (env.parentOf blkID) = .unknown) :
    fetchAncestors env timeOk g blkID lenAcc acc = acc := by
  cases g with
  | zero => rfl
  | succ g =>
      unfold fetchAncestors
      by_cases ht : timeOk acc.length = false
      · rw [if_pos ht]
      · rw [if_neg ht]
        simp only [hs, if_pos]

/-- The fetch loop stops when the next container would overflow the
byte budget. -/
theorem fetchAncestors_stop_len (env : Env) (timeOk : Nat → Bool) (g : Nat)
    (blkID : ID) (lenAcc : Nat) (acc : List (List Nat))
    (ht : ¬ timeOk acc.length = false)
    (hs : ¬ env.statusOf (env.parentOf blkID) = .unknown)
    (hlen : ¬ intLen + lenAcc + (env.bytesOf (env.parentOf blkID)).length < maxContainersLen) :
    fetchAncestors env timeOk (g+1) blkID lenAcc acc = acc := by
  unfold fetchAncestors
  rw [if_neg ht]
  simp only
  rw [if_neg hs, if_neg hlen]

/-- One productive iteration of the fetch loop. -/
theorem fetchAncestors_step (env : Env) (timeOk : Nat → Bool) (g : Nat)
    (blkID : ID) (lenAcc : Nat) (acc : List (List Nat))
    (ht : ¬ timeOk acc.length = false)
    (hs : ¬ env.statusOf (env.parentOf blkID) = .unknown)
    (hlen : intLen + lenAcc + (env.bytesOf (env.parentOf blkID)).length < maxContainersLen) :
    fetchAncestors env timeOk (g+1) blkID lenAcc acc =
      fetchAncestors env timeOk g (env.parentOf blkID)
        (intLen + lenAcc + (env.bytesOf (env.parentOf blkID)).length)
        (acc ++ [env.bytesOf (env.parentOf blkID)]) := by
  conv_lhs => unfold fetchAncestors
  rw [if_neg ht]
  simp only
  rw [if_neg hs, if_pos hlen]

/-- The fetch loop, started on the parent chain of a block with `k + 1`
containers already collected, extends the collection along the chain:
the result is the chain prefix of some length `m + 1` with `m`
exceeding `k` by at most the remaining gas, the byte budget holds
unless nothing was added, and every added ancestor has known
status. -/
theorem fetchAncestors_chain (env : Env) (timeOk : Nat → Bool) (blkID : ID) :
    ∀ (gas k : Nat),
      ∃ m, k ≤ m ∧ m ≤ k + gas ∧
        fetchAncestors env timeOk gas (env.parentIter blkID k)
            (multiPutLen (ancestryBytes env blkID k))
            (ancestryBytes env blkID k) = ancestryBytes env blkID m ∧
        (m = k ∨ multiPutLen (ancestryBytes env blkID m) < maxContainersLen) ∧
        (∀ j, k < j → j ≤ m → env.statusOf (env.parentIter blkID j) ≠ .unknown) := by
  intro gas
  induction gas with
  | zero =>
      intro k
      exact ⟨k, le_refl k, by omega, rfl, Or.inl rfl,
        fun j h1 h2 => absurd (lt_of_lt_of_le h1 h2) (lt_irrefl k)⟩
  | succ g ih =>
      intro k
      by_cases ht : timeOk (ancestryBytes env blkID k).length = false
      · exact ⟨k, le_refl k, by omega,
          fetchAncestors_stop_time env timeOk g _ _ _ ht, Or.inl rfl,
          fun j h1 h2 => absurd (lt_of_lt_of_le h1 h2) (lt_irrefl k)⟩
      · have hpar : env.parentOf (env.parentIter blkID k) = env.parentIter blkID (k+1) := rfl
        by_cases hs : env.statusOf (env.parentIter blkID (k+1)) = .unknown
        · exact ⟨k, le_refl k, by omega,
            fetchAncestors_stop_unknown env timeOk (g+1) _ _ _ (by rw [hpar]; exact hs),
            Or.inl rfl,
            fun j h1 h2 => absurd (lt_of_lt_of_le h1 h2) (lt_irrefl k)⟩
        · by_cases hlen : intLen + multiPutLen (ancestryBytes env blkID k) +
              (env.bytesOf (env.parentIter blkID (k+1))).length < maxContainersLen
          · have hstep := fetchAncestors_step env timeOk g (env.parentIter blkID k)
              (multiPutLen (ancestryBytes env blkID k)) (ancestryBytes env blkID k)
              ht (by rw [hpar]; exact hs) (by rw [hpar]; exact hlen)
            have hlen2 : multiPutLen (ancestryBytes env blkID (k+1)) =
                intLen + multiPutLen (ancestryBytes env blkID k) +
                  (env.bytesOf (env.parentIter blkID (k+1))).length := by
              rw [ancestryBytes_succ, multiPutLen_append_one]
              omega
            rcases ih (k+1) with ⟨m, hm1, hm2, heq, hdisj, hstat⟩
            refine ⟨m, by omega, by omega, ?_, ?_, ?_⟩
            · rw [hstep, hpar, ← ancestryBytes_succ, ← hlen2]
              exact heq
            · right
              rcases hdisj with hmk | hlt
              · rw [hmk, hlen2]
                exact hlen
              · exact hlt
            · intro j hj1 hj2
              by_cases hj : j = k + 1
              · rw [hj]
                exact hs
              · exact hstat j (by omega) hj2
          · exact ⟨k, le_refl k, by omega,
              fetchAncestors_stop_len env timeOk g _ _ _ ht
                (by rw [hpar]; exact hs) (by rw [hpar]; exact hlen),
              Or.inl rfl,
              fun j h1 h2 => absurd (lt_of_lt_of_le h1 h2) (lt_irrefl k)⟩

end OdysseyGo

namespace OdysseyGo

/-- C8 amended: for a `GetAncestors` whose block id is known locally,
the MultiPut reply lists the requested block's bytes first followed by
ancestors parent-ward, holds at most `MaxContainersPerMultiPut`
containers, keeps the cumulative byte length below the configured
maximum for every container added beyond the first (the requested
block itself is included unchecked), and stops at the first ancestor
with Unknown status; in particular, when the requested block's parent
is Unknown (the genesis block), the reply is exactly one container. -/
theorem GetAncestors_reply_spec (t : Transitive) (env : Env) (timeOk : Nat → Bool)
    (vdr : Peer) (rid : Nat) (blkID : ID) (bd : BlockData)
    (hknown : env.vmGet blkID = some bd) :
    ∃ m, t.GetAncestors env timeOk vdr rid blkID =
        (t, [OutMsg.multiPutMsg vdr rid (ancestryBytes env blkID m)]) ∧
      (ancestryBytes env blkID m).headD [] = bd.bytes ∧
      (ancestryBytes env blkID m).length ≤ MaxContainersPerMultiPut ∧
      (m = 0 ∨ multiPutLen (ancestryBytes env blkID m) < maxContainersLen) ∧
      (∀ j, 0 < j → j ≤ m → env.statusOf (env.parentIter blkID j) ≠ .unknown) ∧
      (env.statusOf (env.parentOf blkID) = .unknown →
         ancestryBytes env blkID m = [bd.bytes]) := by
  have hb0 : env.bytesOf blkID = bd.bytes := by
    unfold Env.bytesOf
    rw [hknown]
  have h0 : ancestryBytes env blkID 0 = [bd.bytes] := by
    unfold ancestryBytes
    rw [show List.range 1 = [0] from rfl, List.map_cons, List.map_nil]
    rw [show env.parentIter blkID 0 = blkID from rfl, hb0]
  have hlen0 : multiPutLen (ancestryBytes env blkID 0) = bd.bytes.length + intLen := by
    rw [h0]
    unfold multiPutLen
    simp [Nat.add_comm]
  rcases fetchAncestors_chain env timeOk blkID (MaxContainersPerMultiPut - 1) 0 with
    ⟨m, hm0, hmb, heq, hdisj, hstat⟩
  have hiter0 : env.parentIter blkID 0 = blkID := rfl
  rw [hiter0, hlen0, h0] at heq
  refine ⟨m, ?_, ?_, ?_, ?_, ?_, ?_⟩
  · unfold Transitive.GetAncestors
    rw [hknown]
    simp only
    rw [heq]
  · unfold ancestryBytes
    rw [List.range_succ_eq_map, List.map_cons]
    simp [Env.parentIter, hb0]
  · rw [ancestryBytes_length]
    have hmax : MaxContainersPerMultiPut = 2000 := rfl
    omega
  · rcases hdisj with hmk | hlt
    · exact Or.inl hmk
    · exact Or.inr hlt
  · exact fun j h1 h2 => hstat j h1 h2
  · intro hgen
    have hm : m = 0 := by
      by_contra hne
      exact hstat 1 (by omega) (by omega) hgen
    rw [hm, h0]



/-- C8 counterexample: the claim says the reply keeps the cumulative
byte length below the configured maximum; the first container is
included without any check, so a single 1677717-byte block yields a
reply whose cumulative wire length equals the maximum rather than
staying below it. -/
theorem GetAncestors_cumulative_counterexample :
    exEngine.GetAncestors hugeEnv (fun _ => true) 1 1 10 =
      (exEngine, [OutMsg.multiPutMsg 1 1 [List.replicate 1677717 0]]) ∧
    ¬ multiPutLen [List.replicate 1677717 0] < maxContainersLen := by
  constructor
  · unfold Transitive.GetAncestors
    rw [show hugeEnv.vmGet 10 = some ⟨9, .processing, List.replicate 1677717 0⟩ from rfl]
    simp only
    rw [fetchAncestors_stop_unknown hugeEnv (fun _ => true) (MaxContainersPerMultiPut - 1)
      10 _ _ (by rfl)]
  · have h1 : multiPutLen [List.replicate 1677717 0] = intLen + 1677717 := by
      unfold multiPutLen
      rw [List.map_cons, List.map_nil, List.length_replicate]
      simp
    rw [h1]
    decide



/-- Witness for C8 (amended), on the two-block chain. -/
theorem GetAncestors_reply_spec_witness :
    ∃ m, exEngine.GetAncestors exAncEnv (fun _ => true) 1 1 10 =
        (exEngine, [OutMsg.multiPutMsg 1 1 (ancestryBytes exAncEnv 10 m)]) ∧
      (ancestryBytes exAncEnv 10 m).headD [] = ([1, 2] : List Nat) ∧
      (ancestryBytes exAncEnv 10 m).length ≤ MaxContainersPerMultiPut ∧
      (m = 0 ∨ multiPutLen (ancestryBytes exAncEnv 10 m) < maxContainersLen) ∧
      (∀ j, 0 < j → j ≤ m → exAncEnv.statusOf (exAncEnv.parentIter 10 j) ≠ .unknown) ∧
      (exAncEnv.statusOf (exAncEnv.parentOf 10) = .unknown →
         ancestryBytes exAncEnv 10 m = [[1, 2]]) :=
  GetAncestors_reply_spec exEngine exAncEnv (fun _ => true) 1 1 10
    ⟨9, .processing, [1, 2]⟩ rfl

end OdysseyGo

/-! ### C9 -/

namespace OdysseyGo



/-- C9 counterexample: a self-addressed Get does not enqueue the
inbound form of the Get on the local router; the Sender synthesizes an
internal GetFailed instead ("Sending a Get to myself will always
fail"), so the claim fails for the Get request kind. -/
theorem SendGet_self_counterexample :
    sendGet exSenderEnv 3 7 5 =
      [SenderEffect.handleInbound (InMsg.internalGetFailed 3 2 7)] := by
  decide

/-- C9 amended: for the set-addressed query kinds PullQuery and
PushQuery, a destination set containing the local node gets the
inbound form of the same message enqueued on the local router
asynchronously (the `go router.HandleInbound`, the `handleInbound`
effect here) with a timeout registered; for Get, a self-addressed
request instead enqueues a synthesized internal GetFailed — a Get to
oneself always fails. -/
theorem send_self_routing (env : SenderEnv) (nodeIDs : List Peer)
    (rid : Nat) (cid : ID) (bytes : List Nat)
    (hself : nodeIDs.contains env.selfID = true) :
    SenderEffect.handleInbound (InMsg.inboundPullQuery env.chainID rid
        (env.now + env.timeoutDuration) cid env.selfID) ∈
      sendPullQuery env nodeIDs rid cid ∧
    SenderEffect.registerRequest env.selfID env.chainID rid .pullQueryOp ∈
      sendPullQuery env nodeIDs rid cid ∧
    SenderEffect.handleInbound (InMsg.inboundPushQuery env.chainID rid
        (env.now + env.timeoutDuration) cid bytes env.selfID) ∈
      sendPushQuery env nodeIDs rid cid bytes ∧
    SenderEffect.registerRequest env.selfID env.chainID rid .pushQueryOp ∈
      sendPushQuery env nodeIDs rid cid bytes ∧
    sendGet env env.selfID rid cid =
      [SenderEffect.handleInbound (InMsg.internalGetFailed env.selfID env.chainID rid)] := by
  have hmem : env.selfID ∈ nodeIDs := by simpa using hself
  refine ⟨?_, ?_, ?_, ?_, ?_⟩
  · simp [sendPullQuery, hself, hmem]
  · simp [sendPullQuery, hself, hmem]
  · simp [sendPushQuery, hself, hmem]
  · simp [sendPushQuery, hself, hmem]
  · unfold sendGet
    rw [if_pos rfl]

/-- Witness for C9 (amended): destination set {3, 4} with the local
node 3. -/
theorem send_self_routing_witness :
    SenderEffect.handleInbound (InMsg.inboundPullQuery exSenderEnv.chainID 7
        (exSenderEnv.now + exSenderEnv.timeoutDuration) 5 exSenderEnv.selfID) ∈
      sendPullQuery exSenderEnv [3, 4] 7 5 ∧
    SenderEffect.registerRequest exSenderEnv.selfID exSenderEnv.chainID 7 .pullQueryOp ∈
      sendPullQuery exSenderEnv [3, 4] 7 5 ∧
    SenderEffect.handleInbound (InMsg.inboundPushQuery exSenderEnv.chainID 7
        (exSenderEnv.now + exSenderEnv.timeoutDuration) 5 [9] exSenderEnv.selfID) ∈
      sendPushQuery exSenderEnv [3, 4] 7 5 [9] ∧
    SenderEffect.registerRequest exSenderEnv.selfID exSenderEnv.chainID 7 .pushQueryOp ∈
      sendPushQuery exSenderEnv [3, 4] 7 5 [9] ∧
    sendGet exSenderEnv exSenderEnv.selfID 7 5 =
      [SenderEffect.handleInbound
        (InMsg.internalGetFailed exSenderEnv.selfID exSenderEnv.chainID 7)] :=
  send_self_routing exSenderEnv [3, 4] 7 5 [9] (by decide)

end OdysseyGo
